import Mathlib

/-!
# Offline activation tokens: issuer (`server-side/signer.go`) and verifier
(`client-side/activator.go`, `client-side/main.go`)

A shallow embedding of the two Go programs.

* A Go `string` / `[]byte` is a list of bytes (`Fin 256`).
* The filesystem is a map from paths to the contents of the readable files.
* The cryptographic primitives (`crypto/rsa`, `crypto/sha256`, `crypto/x509`,
  `encoding/pem`), `time.Parse` and two Unicode-aware helpers of `strings` are
  fields of a `Lib` record: the programs are defined for every such library.
* `encoding/json` (for the `Token` struct), `unicode/utf8`,
  `encoding/base64` (`StdEncoding`) and `encoding/hex` are defined concretely.
-/

set_option maxRecDepth 100000

namespace OfflineActivate

/-! ## Bytes -/

abbrev Byte := Fin 256

abbrev Bytes := List Byte

/-- Conversion `byte(n)` of Go: truncation to eight bits. -/
def byte (n : Nat) : Byte := ⟨n % 256, Nat.mod_lt _ (by decide)⟩

/-- The bytes of an ASCII string literal. -/
def ascii (s : String) : Bytes := s.toList.map (fun c => byte c.toNat)

/-! ## `unicode/utf8` -/

/-- The rune `utf8.RuneError` (U+FFFD). -/
def runeError : Nat := 0xFFFD

/-- Go `utf8.DecodeRune`: the first rune of `p` and its width in bytes. An
invalid or truncated encoding gives `(RuneError, 1)`, empty input
`(RuneError, 0)`. -/
def decodeRune : Bytes → Nat × Nat
  | [] => (runeError, 0)
  | p0 :: t =>
    if p0.val < 0x80 then (p0.val, 1)
    else if p0.val < 0xC2 then (runeError, 1)
    else if p0.val < 0xE0 then
      match t with
      | b1 :: _ =>
        if 0x80 ≤ b1.val ∧ b1.val ≤ 0xBF then (p0.val % 32 * 64 + b1.val % 64, 2)
        else (runeError, 1)
      | [] => (runeError, 1)
    else if p0.val < 0xF0 then
      match t with
      | b1 :: b2 :: _ =>
        if (if p0.val = 0xE0 then 0xA0 else 0x80) ≤ b1.val ∧
            b1.val ≤ (if p0.val = 0xED then 0x9F else 0xBF) then
          if 0x80 ≤ b2.val ∧ b2.val ≤ 0xBF then
            (p0.val % 16 * 4096 + b1.val % 64 * 64 + b2.val % 64, 3)
          else (runeError, 1)
        else (runeError, 1)
      | _ => (runeError, 1)
    else if p0.val < 0xF5 then
      match t with
      | b1 :: b2 :: b3 :: _ =>
        if (if p0.val = 0xF0 then 0x90 else 0x80) ≤ b1.val ∧
            b1.val ≤ (if p0.val = 0xF4 then 0x8F else 0xBF) then
          if 0x80 ≤ b2.val ∧ b2.val ≤ 0xBF then
            if 0x80 ≤ b3.val ∧ b3.val ≤ 0xBF then
              (p0.val % 8 * 262144 + b1.val % 64 * 4096 + b2.val % 64 * 64 + b3.val % 64, 4)
            else (runeError, 1)
          else (runeError, 1)
        else (runeError, 1)
      | _ => (runeError, 1)
    else (runeError, 1)

/-- Go `utf8.EncodeRune` / `utf8.AppendRune`: surrogates and values above
U+10FFFF are written as U+FFFD. -/
def encodeRune (r : Nat) : Bytes :=
  if r ≤ 0x7F then [byte r]
  else if r ≤ 0x7FF then [byte (0xC0 + r / 64), byte (0x80 + r % 64)]
  else if 0x10FFFF < r ∨ (0xD800 ≤ r ∧ r ≤ 0xDFFF) then [0xEF, 0xBF, 0xBD]
  else if r ≤ 0xFFFF then
    [byte (0xE0 + r / 4096), byte (0x80 + r / 64 % 64), byte (0x80 + r % 64)]
  else
    [byte (0xF0 + r / 262144), byte (0x80 + r / 4096 % 64), byte (0x80 + r / 64 % 64),
      byte (0x80 + r % 64)]

/-- Go `utf8.Valid`, with fuel: no position decodes to `(RuneError, 1)`. -/
def validFrom : Nat → Bytes → Bool
  | _, [] => true
  | 0, _ :: _ => false
  | fuel + 1, b :: rest =>
    if b.val < 0x80 then validFrom fuel rest
    else
      let d := decodeRune (b :: rest)
      if d.2 = 1 then false else validFrom fuel ((b :: rest).drop d.2)

/-- Go `utf8.Valid`. -/
def validUTF8 (s : Bytes) : Bool := validFrom s.length s

/-! ## `encoding/hex`, `encoding/base64` -/

/-- The digit `"0123456789abcdef"[n]`. -/
def hexDigit (n : Nat) : Byte := if n % 16 < 10 then byte (48 + n % 16) else byte (87 + n % 16)

/-- Go `hex.EncodeToString`. -/
def hexEncode : Bytes → Bytes
  | [] => []
  | b :: rest => hexDigit (b.val / 16) :: hexDigit (b.val % 16) :: hexEncode rest

/-- The alphabet of `base64.StdEncoding`, `A-Za-z0-9+/`, as a function of the
six-bit value. -/
def b64Char (v : Nat) : Byte :=
  if v < 26 then byte (65 + v)
  else if v < 52 then byte (71 + v)
  else if v < 62 then byte (v - 4)
  else if v = 62 then 43
  else 47

/-- The decode map of `base64.StdEncoding`: the six-bit value of an alphabet
byte, `none` for every other byte. -/
def b64Val (c : Byte) : Option Nat :=
  if 65 ≤ c.val ∧ c.val ≤ 90 then some (c.val - 65)
  else if 97 ≤ c.val ∧ c.val ≤ 122 then some (c.val - 71)
  else if 48 ≤ c.val ∧ c.val ≤ 57 then some (c.val + 4)
  else if c.val = 43 then some 62
  else if c.val = 47 then some 63
  else none

/-- Go `base64.StdEncoding.EncodeToString`. -/
def b64Encode : Bytes → Bytes
  | a :: b :: c :: rest =>
    b64Char (a.val / 4) :: b64Char (a.val % 4 * 16 + b.val / 16) ::
      b64Char (b.val % 16 * 4 + c.val / 64) :: b64Char (c.val % 64) :: b64Encode rest
  | [a, b] =>
    [b64Char (a.val / 4), b64Char (a.val % 4 * 16 + b.val / 16), b64Char (b.val % 16 * 4), 61]
  | [a] => [b64Char (a.val / 4), b64Char (a.val % 4 * 16), 61, 61]
  | [] => []

/-- Skips `\r` and `\n`, as the base64 decoder does around padding. -/
def skipNL : Bytes → Bytes
  | [] => []
  | c :: rest => if c = 10 ∨ c = 13 then skipNL rest else c :: rest

/-- One call of `decodeQuantum` of `encoding/base64` on the unread input, with
the sextets read so far in `acc` (fewer than four). Returns the sextets of
the quantum and the unread input; `none` is `CorruptInputError`. -/
def decodeQuantum : Bytes → List Nat → Option (List Nat × Bytes)
  | [], acc => if acc = [] then some ([], []) else none
  | c :: rest, acc =>
    match b64Val c with
    | some v =>
      if acc.length = 3 then some (acc ++ [v], rest) else decodeQuantum rest (acc ++ [v])
    | none =>
      if c = 10 ∨ c = 13 then decodeQuantum rest acc
      else if c ≠ 61 then none
      else if acc.length < 2 then none
      else if acc.length = 2 then
        match skipNL rest with
        | [] => none
        | p :: r => if p ≠ 61 then none else if skipNL r = [] then some (acc, []) else none
      else if skipNL rest = [] then some (acc, []) else none

/-- The bytes a quantum of two, three or four sextets stands for (non-strict
decoding: unused low bits are dropped). -/
def quantumBytes : List Nat → Bytes
  | [a, b] => [byte (a * 4 + b / 16)]
  | [a, b, c] => [byte (a * 4 + b / 16), byte (b % 16 * 16 + c / 4)]
  | [a, b, c, d] => [byte (a * 4 + b / 16), byte (b % 16 * 16 + c / 4), byte (c % 4 * 64 + d)]
  | _ => []

/-- The loop of `Encoding.Decode`: quanta until the input is used up. -/
def b64DecodeLoop : Nat → Bytes → Option Bytes
  | _, [] => some []
  | 0, _ :: _ => none
  | fuel + 1, c :: src =>
    match decodeQuantum (c :: src) [] with
    | none => none
    | some (q, rest) =>
      match b64DecodeLoop fuel rest with
      | none => none
      | some out => some (quantumBytes q ++ out)

/-- Go `base64.StdEncoding.DecodeString`; `none` is a decoding error. -/
def b64Decode (s : Bytes) : Option Bytes := b64DecodeLoop s.length s

/-! ## The token and `encoding/json` -/

/-- The Go struct `Token` (the same declaration in both programs). -/
structure Token where
  machineID : Bytes
  programHash : Bytes
  expiry : Bytes
  extra : Bytes
  signature : Bytes
deriving DecidableEq

/-- The table `htmlSafeSet` of `encoding/json`: the ASCII bytes written
unescaped when HTML escaping is on (the default of `json.Marshal`). -/
def htmlSafe (b : Nat) : Bool :=
  0x20 ≤ b && b < 0x80 && b != 0x22 && b != 0x5C && b != 0x3C && b != 0x3E && b != 0x26

/-- The escape `appendString` writes for an ASCII byte outside `htmlSafeSet`:
a two-character escape for the quote, the backslash, backspace, form feed,
newline, carriage return and tab, the six-character escape otherwise. -/
def escapeAscii (b : Byte) : Bytes :=
  if b = 0x5C ∨ b = 0x22 then [0x5C, b]
  else if b = 0x08 then [0x5C, 0x62]
  else if b = 0x0C then [0x5C, 0x66]
  else if b = 0x0A then [0x5C, 0x6E]
  else if b = 0x0D then [0x5C, 0x72]
  else if b = 0x09 then [0x5C, 0x74]
  else [0x5C, 0x75, 0x30, 0x30, hexDigit (b.val / 16), hexDigit (b.val % 16)]

/-- The loop of `appendString` of `encoding/json` (HTML escaping on): the
text between the quotes of the JSON string for `src`. An invalid UTF-8 byte
is written as the three bytes EF BF BD of U+FFFD, U+2028 and U+2029 as their
six-character escapes, other non-ASCII runes unchanged. -/
def quoteBody : Nat → Bytes → Bytes
  | _, [] => []
  | 0, _ :: _ => []
  | fuel + 1, b :: rest =>
    if b.val < 0x80 then
      if htmlSafe b.val then b :: quoteBody fuel rest
      else escapeAscii b ++ quoteBody fuel rest
    else
      let d := decodeRune (b :: rest)
      if d.1 = runeError ∧ d.2 = 1 then
        [0xEF, 0xBF, 0xBD] ++ quoteBody fuel rest
      else if d.1 = 0x2028 ∨ d.1 = 0x2029 then
        [0x5C, 0x75, 0x32, 0x30, 0x32, hexDigit (d.1 % 16)] ++
          quoteBody fuel ((b :: rest).drop d.2)
      else (b :: rest).take d.2 ++ quoteBody fuel ((b :: rest).drop d.2)

/-- Go `appendString`: the JSON string literal for `s`. -/
def quote (s : Bytes) : Bytes := 0x22 :: (quoteBody s.length s ++ [0x22])

/-- Go `json.Marshal` of a `Token`: the five members in declaration order,
no whitespace. It never fails for this struct. -/
def marshal (t : Token) : Bytes :=
  ascii "\x7b\"machine_id\":" ++ quote t.machineID ++
  ascii ",\"program_hash\":" ++ quote t.programHash ++
  ascii ",\"expiry\":" ++ quote t.expiry ++
  ascii ",\"extra\":" ++ quote t.extra ++
  ascii ",\"signature\":" ++ quote t.signature ++ ascii "\x7d"

/-- Go `json.MarshalIndent(t, "", "  ")` of a `Token`: the output of
`marshal` re-indented by `json.Indent`, one member per line. -/
def marshalIndent (t : Token) : Bytes :=
  ascii "\x7b\n  \"machine_id\": " ++ quote t.machineID ++
  ascii ",\n  \"program_hash\": " ++ quote t.programHash ++
  ascii ",\n  \"expiry\": " ++ quote t.expiry ++
  ascii ",\n  \"extra\": " ++ quote t.extra ++
  ascii ",\n  \"signature\": " ++ quote t.signature ++ ascii "\n\x7d"

/-- JSON whitespace (`isSpace` of the scanner). -/
def isSpace (c : Byte) : Bool := c = 0x20 || c = 0x09 || c = 0x0D || c = 0x0A

/-- Skips JSON whitespace. -/
def skipWs : Bytes → Bytes
  | [] => []
  | c :: rest => if isSpace c then skipWs rest else c :: rest

/-- Value of a hexadecimal digit, either case. -/
def hexVal (c : Byte) : Option Nat :=
  if 0x30 ≤ c.val ∧ c.val ≤ 0x39 then some (c.val - 0x30)
  else if 0x61 ≤ c.val ∧ c.val ≤ 0x66 then some (c.val - 0x61 + 10)
  else if 0x41 ≤ c.val ∧ c.val ≤ 0x46 then some (c.val - 0x41 + 10)
  else none

/-- Go `getu4`: the code unit of a leading `\uXXXX`, `none` for Go's `-1`. -/
def getu4 : Bytes → Option Nat
  | bs :: u :: a :: b :: c :: d :: _ =>
    if bs = 0x5C ∧ u = 0x75 then
      match hexVal a, hexVal b, hexVal c, hexVal d with
      | some x, some y, some z, some w => some (((x * 16 + y) * 16 + z) * 16 + w)
      | _, _, _, _ => none
    else none
  | _ => none

/-- One step of the loop of `unquoteBytes` on text the scanner accepts: the
bytes decoded from the front of the input and the input after them. An
escape, an ASCII byte or a UTF-8 sequence is read; invalid UTF-8 and
unpaired surrogates become U+FFFD. `none` is a syntax error: an escape
other than the eight simple ones and `\uXXXX`, a bare quote or a byte below
0x20. -/
def unquoteStep : Bytes → Option (Bytes × Bytes)
  | [] => none
  | c :: rest =>
    if c = 0x5C then
      match rest with
      | [] => none
      | e :: rest2 =>
        if e = 0x22 ∨ e = 0x5C ∨ e = 0x2F then some ([e], rest2)
        else if e = 0x62 then some ([0x08], rest2)
        else if e = 0x66 then some ([0x0C], rest2)
        else if e = 0x6E then some ([0x0A], rest2)
        else if e = 0x72 then some ([0x0D], rest2)
        else if e = 0x74 then some ([0x09], rest2)
        else if e = 0x75 then
          match getu4 (c :: e :: rest2) with
          | none => none
          | some rr =>
            let rest6 := rest2.drop 4
            if 0xD800 ≤ rr ∧ rr < 0xE000 then
              match getu4 rest6 with
              | some rr1 =>
                if rr < 0xDC00 ∧ 0xDC00 ≤ rr1 ∧ rr1 < 0xE000 then
                  some (encodeRune ((rr - 0xD800) * 1024 + (rr1 - 0xDC00) + 0x10000),
                    rest6.drop 6)
                else some (encodeRune runeError, rest6)
              | none => some (encodeRune runeError, rest6)
            else some (encodeRune rr, rest6)
        else none
    else if c = 0x22 ∨ c.val < 0x20 then none
    else if c.val < 0x80 then some ([c], rest)
    else
      let d := decodeRune (c :: rest)
      some (encodeRune d.1, (c :: rest).drop d.2)

/-- Scans a JSON string literal after its opening quote and unquotes it as
`unquoteBytes` does: returns the decoded string and the input after the
closing quote, `none` on a syntax error or a missing closing quote. -/
def scanString : Nat → Bytes → Option (Bytes × Bytes)
  | _, [] => none
  | 0, _ :: _ => none
  | fuel + 1, c :: rest =>
    if c = 0x22 then some ([], rest)
    else
      match unquoteStep (c :: rest) with
      | none => none
      | some (piece, r) => (scanString fuel r).map (fun x => (piece ++ x.1, x.2))

/-- Whether a byte is an ASCII digit. -/
def isDigit (c : Byte) : Bool := 0x30 ≤ c.val && c.val ≤ 0x39

/-- Drops a run of digits. -/
def skipDigits : Bytes → Bytes
  | [] => []
  | c :: rest => if isDigit c then skipDigits rest else c :: rest

/-- At least one digit, then the rest of the run. -/
def digits1 : Bytes → Option Bytes
  | [] => none
  | c :: rest => if isDigit c then some (skipDigits rest) else none

/-- Scans a JSON number (`-`? int frac? exp?) and returns the input after it. -/
def scanNumber (s : Bytes) : Option Bytes :=
  let s1 := match s with
    | c :: rest => if c = 0x2D then rest else s
    | [] => s
  let afterInt : Option Bytes := match s1 with
    | c :: rest =>
      if c = 0x30 then some rest
      else if 0x31 ≤ c.val ∧ c.val ≤ 0x39 then some (skipDigits rest)
      else none
    | [] => none
  match afterInt with
  | none => none
  | some s2 =>
    let afterFrac : Option Bytes := match s2 with
      | c :: rest => if c = 0x2E then digits1 rest else some s2
      | [] => some s2
    match afterFrac with
    | none => none
    | some s3 =>
      match s3 with
      | c :: rest =>
        if c = 0x65 ∨ c = 0x45 then
          match rest with
          | g :: rest2 => if g = 0x2B ∨ g = 0x2D then digits1 rest2 else digits1 rest
          | [] => none
        else some s3
      | [] => some s3

/-- Strips the literal `lit` from the front of `s`. -/
def expect : Bytes → Bytes → Option Bytes
  | [], s => some s
  | _ :: _, [] => none
  | l :: lit, c :: s => if l = c then expect lit s else none

/-- What kind of JSON value was read; only a string keeps its contents. -/
inductive JKind
  | str (s : Bytes)
  | null
  | bool
  | number
  | array
  | object
deriving DecidableEq

/-- The limit `maxNestingDepth` of the scanner. -/
def maxNestingDepth : Nat := 10000

/-- Scans a value that is not an object or array, `c` being its first byte:
a string, `true`, `false`, `null` or a number. -/
def scanScalar (c : Byte) (rest : Bytes) : Option (JKind × Bytes) :=
  if c = 0x22 then (scanString (rest.length) rest).map (fun r => (JKind.str r.1, r.2))
  else if c = 0x74 then (expect (ascii "rue") rest).map (fun r => (JKind.bool, r))
  else if c = 0x66 then (expect (ascii "alse") rest).map (fun r => (JKind.bool, r))
  else if c = 0x6E then (expect (ascii "ull") rest).map (fun r => (JKind.null, r))
  else if c = 0x2D ∨ isDigit c then (scanNumber (c :: rest)).map (fun r => (JKind.number, r))
  else none

mutual
/-- Scans one JSON value (leading whitespace allowed) at nesting depth
`depth`; returns its kind and the input after it, `none` on a syntax
error. -/
def scanValue : Nat → Nat → Bytes → Option (JKind × Bytes)
  | 0, _, _ => none
  | fuel + 1, depth, s =>
    match skipWs s with
    | [] => none
    | c :: rest =>
      if c = 0x7B then
        if maxNestingDepth < depth + 1 then none
        else
          match skipWs rest with
          | [] => none
          | c2 :: rest2 =>
            if c2 = 0x7D then some (JKind.object, rest2)
            else (scanMembers fuel (depth + 1) (c2 :: rest2)).map (fun r => (JKind.object, r))
      else if c = 0x5B then
        if maxNestingDepth < depth + 1 then none
        else
          match skipWs rest with
          | [] => none
          | c2 :: rest2 =>
            if c2 = 0x5D then some (JKind.array, rest2)
            else (scanElems fuel (depth + 1) (c2 :: rest2)).map (fun r => (JKind.array, r))
      else scanScalar c rest
/-- Members of an object, from the first key to the closing brace. -/
def scanMembers : Nat → Nat → Bytes → Option Bytes
  | 0, _, _ => none
  | fuel + 1, depth, s =>
    match skipWs s with
    | [] => none
    | q :: rest =>
      if q ≠ 0x22 then none
      else
        match scanString (rest.length) rest with
        | none => none
        | some (_, r1) =>
          match skipWs r1 with
          | [] => none
          | colon :: r2 =>
            if colon ≠ 0x3A then none
            else
              match scanValue fuel depth r2 with
              | none => none
              | some (_, r3) =>
                match skipWs r3 with
                | [] => none
                | c :: r4 =>
                  if c = 0x2C then scanMembers fuel depth r4
                  else if c = 0x7D then some r4
                  else none
/-- Elements of an array, from the first value to the closing bracket. -/
def scanElems : Nat → Nat → Bytes → Option Bytes
  | 0, _, _ => none
  | fuel + 1, depth, s =>
    match scanValue fuel depth s with
    | none => none
    | some (_, r1) =>
      match skipWs r1 with
      | [] => none
      | c :: r2 =>
        if c = 0x2C then scanElems fuel depth r2
        else if c = 0x5D then some r2
        else none
end

/-- The five fields of `Token`. -/
inductive Field
  | machineID
  | programHash
  | expiry
  | extra
  | signature
deriving DecidableEq

/-- The JSON name of a field (its struct tag). -/
def Field.name : Field → Bytes
  | .machineID => ascii "machine_id"
  | .programHash => ascii "program_hash"
  | .expiry => ascii "expiry"
  | .extra => ascii "extra"
  | .signature => ascii "signature"

/-- The fields in declaration order. -/
def allFields : List Field :=
  [.machineID, .programHash, .expiry, .extra, .signature]

/-- Go `foldRune` on the runes that matter for ASCII names: U+017F folds
to `S` and U+212A to `K`; every other non-ASCII rune folds to a non-ASCII
rune, here itself. -/
def foldRune (r : Nat) : Nat := if r = 0x17F then 0x53 else if r = 0x212A then 0x4B else r

/-- Go `foldName` (`appendFoldedName`): ASCII letters to upper case, other
runes through `foldRune`. -/
def foldName : Nat → Bytes → Bytes
  | _, [] => []
  | 0, _ :: _ => []
  | fuel + 1, c :: rest =>
    if c.val < 0x80 then
      (if 0x61 ≤ c.val ∧ c.val ≤ 0x7A then byte (c.val - 0x20) else c) :: foldName fuel rest
    else
      let d := decodeRune (c :: rest)
      encodeRune (foldRune d.1) ++ foldName fuel ((c :: rest).drop d.2)

/-- The struct field an object key selects: an exact match of the name,
else a match of the folded names; `none` for an unknown key. -/
def fieldOf (key : Bytes) : Option Field :=
  match allFields.find? (fun f => f.name = key) with
  | some f => some f
  | none =>
    allFields.find? (fun f => foldName f.name.length f.name = foldName key.length key)

/-- Assignment of a string to a field. -/
def Token.set (t : Token) (f : Field) (v : Bytes) : Token :=
  match f with
  | .machineID => { t with machineID := v }
  | .programHash => { t with programHash := v }
  | .expiry => { t with expiry := v }
  | .extra => { t with extra := v }
  | .signature => { t with signature := v }

/-- What the decoder does with one member of the top-level object: a string
is stored in the selected field, `null` and unknown keys change nothing,
any other value for a known field records an `UnmarshalTypeError` (the flag)
and decoding goes on. -/
def storeMember (t : Token) (bad : Bool) (key : Bytes) (k : JKind) : Token × Bool :=
  match fieldOf key with
  | none => (t, bad)
  | some f =>
    match k with
    | .str v => (t.set f v, bad)
    | .null => (t, bad)
    | _ => (t, true)

/-- Decodes the members of the top-level object into `t`, from the first key
to the closing brace. -/
def decodeMembers : Nat → Token → Bool → Bytes → Option (Token × Bool × Bytes)
  | 0, _, _, _ => none
  | fuel + 1, t, bad, s =>
    match skipWs s with
    | [] => none
    | q :: rest =>
      if q ≠ 0x22 then none
      else
        match scanString (rest.length) rest with
        | none => none
        | some (key, r1) =>
          match skipWs r1 with
          | [] => none
          | colon :: r2 =>
            if colon ≠ 0x3A then none
            else
              match scanValue (r2.length + 1) 1 r2 with
              | none => none
              | some (k, r3) =>
                match skipWs r3 with
                | [] => none
                | c :: r4 =>
                  if c = 0x2C then
                    decodeMembers fuel (storeMember t bad key k).1 (storeMember t bad key k).2 r4
                  else if c = 0x7D then
                    some ((storeMember t bad key k).1, (storeMember t bad key k).2, r4)
                  else none

/-- The two errors of `json.Unmarshal`. -/
inductive JsonErr
  | syntaxError
  | typeError
deriving DecidableEq

/-- The zero value of `Token`. -/
def Token.zero : Token := ⟨[], [], [], [], []⟩

/-- Go `json.Unmarshal(data, &t)` for a zero `Token` `t`: the whole input
must be one JSON value followed by whitespace only; an object is decoded
member by member, `null` leaves `t` zero, any other value is an
`UnmarshalTypeError`. -/
def unmarshal (data : Bytes) : Except JsonErr Token :=
  match skipWs data with
  | [] => .error .syntaxError
  | c :: rest =>
    if c = 0x7B then
      match skipWs rest with
      | [] => .error .syntaxError
      | c2 :: rest2 =>
        if c2 = 0x7D then
          if skipWs rest2 = [] then .ok Token.zero else .error .syntaxError
        else
          match decodeMembers (rest.length + 1) Token.zero false (c2 :: rest2) with
          | none => .error .syntaxError
          | some (t, bad, r) =>
            if skipWs r = [] then (if bad then .error .typeError else .ok t)
            else .error .syntaxError
    else
      match scanValue (data.length + 1) 0 (c :: rest) with
      | none => .error .syntaxError
      | some (k, r) =>
        if skipWs r = [] then
          (if k = JKind.null then .ok Token.zero else .error .typeError)
        else .error .syntaxError

/-! ## The environment -/

/-- An RSA public key (`rsa.PublicKey`). -/
structure RSAPublicKey where
  N : Nat
  E : Nat
deriving DecidableEq

/-- An RSA private key (`rsa.PrivateKey`) with its public half. -/
structure RSAPrivateKey where
  pub : RSAPublicKey
  D : Nat
deriving DecidableEq

/-- The dynamic type of the key `x509.ParsePKIXPublicKey` returns. -/
inductive PubIfc
  | rsa (k : RSAPublicKey)
  | other

/-- The dynamic type of the key `x509.ParsePKCS8PrivateKey` returns. -/
inductive PrivIfc
  | rsa (k : RSAPrivateKey)
  | other

/-- The library functions the programs call and this development leaves
uninterpreted. `none` stands for a non-nil `error`. -/
structure Lib where
  /-- Bytes of the first PEM block (`pem.Decode`), `none` for a nil block. -/
  pemDecode : Bytes → Option Bytes
  /-- Models `x509.ParsePKIXPublicKey`. -/
  parsePKIXPublicKey : Bytes → Option PubIfc
  /-- Models `x509.ParsePKCS8PrivateKey`. -/
  parsePKCS8PrivateKey : Bytes → Option PrivIfc
  /-- Models `x509.ParsePKCS1PrivateKey`. -/
  parsePKCS1PrivateKey : Bytes → Option RSAPrivateKey
  /-- Models `sha256.Sum256`. -/
  sha256 : Bytes → Bytes
  /-- Whether `rsa.VerifyPSS` with SHA-256 and salt length equal to the hash
  length returns nil for this key, digest and signature. -/
  verifyPSS : RSAPublicKey → Bytes → Bytes → Bool
  /-- Models `rsa.SignPSS` with the same options, drawing the bytes `rand` from
  `rand.Reader`. -/
  signPSS : Bytes → RSAPrivateKey → Bytes → Option Bytes
  /-- Models `time.Parse(time.RFC3339, s)`: the instant in nanoseconds since the
  epoch. -/
  parseRFC3339 : Bytes → Option Int
  /-- Models `strings.TrimSpace`. -/
  trimSpace : Bytes → Bytes
  /-- Models `strings.Fields`. -/
  fields : Bytes → List Bytes

/-- Readable files and their contents. -/
abbrev FS := String → Option Bytes

/-- The value of `runtime.GOOS`. -/
inductive GOOS
  | linux
  | darwin
  | windows
  | other
deriving DecidableEq

/-- A network interface (`net.Interface`): its flags and hardware address. -/
structure Interface where
  flags : Nat
  hardwareAddr : Bytes
deriving DecidableEq

/-- The bit `net.FlagLoopback` (`1 << 2`). -/
def flagLoopback : Nat := 4

/-- The machine the verifier runs on. -/
structure World where
  /-- The filesystem. -/
  fs : FS
  /-- The value of `runtime.GOOS`. -/
  goos : GOOS
  /-- Result of `os.Executable()`, `none` for an error. -/
  executable : Option String
  /-- Result of `net.Interfaces()`, `none` for an error. -/
  interfaces : Option (List Interface)
  /-- The instant `time.Now()` returns, in nanoseconds since the epoch. -/
  now : Int
  /-- The package variable `activationFile`:
  `filepath.Join(os.TempDir(), "myprogram_activation.json")`. -/
  activationFile : String

/-- How a call of `ioutil.WriteFile` ends: it succeeds; it fails to open the
file (nothing changes); or it fails after creating or truncating the file
and writing the first `n` bytes. -/
inductive WriteOutcome
  | ok
  | openFail
  | shortWrite (n : Nat)
deriving DecidableEq

/-- The two ways `verifySignature` fails. -/
inductive SigErr
  | corruptInput
  | verification
deriving DecidableEq

/-- The errors of the verifier, one constructor for each place an `error` is
made. -/
inductive Err
  /-- Failure of `ioutil.ReadFile`. -/
  | readFile
  /-- Failure of `json.Unmarshal`. -/
  | json (e : JsonErr)
  /-- The error "pem decode failed". -/
  | pemDecodeFailed
  /-- Failure of `x509.ParsePKIXPublicKey`. -/
  | x509
  /-- The error "not rsa public key". -/
  | notRsaPublicKey
  /-- The error "signature verify failed: %v". -/
  | signatureVerifyFailed (e : SigErr)
  /-- Failure of `time.Parse`. -/
  | timeParse
  /-- The error "token expired at %v". -/
  | tokenExpired (exp : Int)
  /-- Failure of `os.Executable`, `os.Open` or `io.Copy`. -/
  | executable
  /-- The error "program hash mismatch: token=%s local=%s". -/
  | programHashMismatch (token loc : Bytes)
  /-- The error "no machine id available". -/
  | noMachineID
  /-- The error "machine id mismatch: token=%s local=%s". -/
  | machineIDMismatch (token loc : Bytes)
  /-- Failure of `ioutil.WriteFile`. -/
  | writeFile
  /-- The error "exec not implemented on this platform". -/
  | execNotImplemented
  /-- The error "persist activation: %v". -/
  | persistActivation (e : Err)
deriving DecidableEq

/-- The error kinds of the specification. -/
inductive Kind
  | malformedToken
  | signatureInvalid
  | expired
  | fingerprintMismatch
  | machineMismatch
  | identityUnavailable
  | ioError
  | keyError
deriving DecidableEq

/-- The kind the specification gives each error of the verifier. -/
def Err.kind : Err → Kind
  | .readFile => .ioError
  | .json _ => .malformedToken
  | .pemDecodeFailed => .keyError
  | .x509 => .keyError
  | .notRsaPublicKey => .keyError
  | .signatureVerifyFailed _ => .signatureInvalid
  | .timeParse => .malformedToken
  | .tokenExpired _ => .expired
  | .executable => .ioError
  | .programHashMismatch _ _ => .fingerprintMismatch
  | .noMachineID => .identityUnavailable
  | .machineIDMismatch _ _ => .machineMismatch
  | .writeFile => .ioError
  | .execNotImplemented => .ioError
  | .persistActivation _ => .ioError

/-- Go `ioutil.ReadFile`. -/
def readFile (fs : FS) (path : String) : Except Err Bytes :=
  match fs path with
  | some b => .ok b
  | none => .error .readFile

/-- Go `ioutil.WriteFile(path, data, perm)` under the outcome `o`. -/
def writeFile (o : WriteOutcome) (fs : FS) (path : String) (data : Bytes) : Option Err × FS :=
  match o with
  | .ok => (none, Function.update fs path (some data))
  | .openFail => (some .writeFile, fs)
  | .shortWrite n => (some .writeFile, Function.update fs path (some (data.take n)))

/-! ## `client-side/activator.go` -/

/-- The constant `pubKeyPEM`. -/
def pubKeyPEM : Bytes :=
  ascii ("-----BEGIN PUBLIC KEY-----\n" ++
    "MIIBIjANBgkqhkiG9w0BAQEFAAOCAQ8AMIIBCgKCAQEAu7rLUjlxMLXOp7TM4UvH\n" ++
    "A5SswZRGZUbhCnsHVzLiLTT/rb/GoFeSKmnEDjDprpTM+0yl/j7e1PtVftp+Ozjl\n" ++
    "vVFAHyZ5updhWXg25Wuv+b1o6vkLbhKEgfZ86ivgYmD4CVo6fDFohuUS1guXDnvL\n" ++
    "/W3aHDdkMBU8wGYasHm3JNsCeh8SS6DCt+JDOhy6XCpwQFCsb6jRJUF/JZNfYc7u\n" ++
    "nai2Txao/R3m/EGkYwsGpnTAVpfPpDWjne3f2fidPxYqJgDiYsZLlm/YbgyqTJjn\n" ++
    "yFaEXc1TzCIuWqi4Lf0Io2pi7+GyKTifJrdxrwwIDWWn+NnPvT5bTFPjvPWflnLX\n" ++
    "wQIDAQAB\n" ++
    "-----END PUBLIC KEY-----")

/-- Go `parsePublicKey`. -/
def parsePublicKey (L : Lib) (pemStr : Bytes) : Except Err RSAPublicKey :=
  match L.pemDecode pemStr with
  | none => .error .pemDecodeFailed
  | some block =>
    match L.parsePKIXPublicKey block with
    | none => .error .x509
    | some (.rsa pk) => .ok pk
    | some .other => .error .notRsaPublicKey

/-- Go `verifySignature`; `none` is a nil error. -/
def verifySignature (L : Lib) (pk : RSAPublicKey) (payload sigB64 : Bytes) : Option SigErr :=
  match b64Decode sigB64 with
  | none => some .corruptInput
  | some sig =>
    let h := L.sha256 payload
    if L.verifyPSS pk h sig then none else some .verification

/-- Go `computeProgramHash`: lower-case hex SHA-256 of the running
executable. -/
def computeProgramHash (L : Lib) (w : World) : Except Err Bytes :=
  match w.executable with
  | none => .error .executable
  | some exe =>
    match w.fs exe with
    | none => .error .executable
    | some f => .ok (hexEncode (L.sha256 f))

/-- Go `execCommand`: always the empty output and an error. -/
def execCommand (_name : Bytes) (_args : List Bytes) : Bytes × Option Err :=
  ([], some .execNotImplemented)

/-- Go `runCmdOutput`. -/
def runCmdOutput (name : Bytes) (args : List Bytes) : Bytes × Option Err :=
  let r := execCommand name args
  (r.1, r.2)

/-- Go `strings.Contains`. -/
def containsSub (s sub : Bytes) : Bool := s.tails.any (fun t => sub.isPrefixOf t)

/-- Go `strings.Trim(s, cutset)` for an ASCII cutset. -/
def trimSet (s cutset : Bytes) : Bytes :=
  ((s.dropWhile (fun c => cutset.contains c)).reverse.dropWhile
    (fun c => cutset.contains c)).reverse

/-- Go `HardwareAddr.String`: lower-case hex pairs separated by colons. -/
def hardwareAddrString : Bytes → Bytes
  | [] => []
  | [b] => [hexDigit (b.val / 16), hexDigit (b.val % 16)]
  | b :: rest => hexDigit (b.val / 16) :: hexDigit (b.val % 16) :: 0x3A :: hardwareAddrString rest

/-- The loop over the lines of the `ioreg` output in `getMachineID`. -/
def ioregUUID : List Bytes → Option Bytes
  | [] => none
  | line :: lines =>
    if containsSub line (ascii "IOPlatformUUID") then
      match line.splitOn 0x3D with
      | _ :: p1 :: _ =>
        let id := trimSet p1 (ascii " \"")
        if id ≠ [] then some id else ioregUUID lines
      | _ => ioregUUID lines
    else ioregUUID lines

/-- The loop over the lines of the `reg query` output in `getMachineID`. -/
def regMachineGuid (L : Lib) : List Bytes → Option Bytes
  | [] => none
  | line :: lines =>
    if containsSub line (ascii "MachineGuid") then
      let fields := L.fields line
      if 3 ≤ fields.length then some (fields.getLastD []) else regMachineGuid L lines
    else regMachineGuid L lines

/-- The last part of `getMachineID`: the hardware address of the first
interface that is not loopback and has one. -/
def macFallback (w : World) : Except Err Bytes :=
  match w.interfaces with
  | some ifas =>
    match ifas.find? (fun itf => itf.flags &&& flagLoopback = 0 ∧ 0 < itf.hardwareAddr.length) with
    | some itf => .ok (hardwareAddrString itf.hardwareAddr)
    | none => .error .noMachineID
  | none => .error .noMachineID

/-- The branch of `getMachineID` for one machine-id file: the trimmed
contents when the file is readable and not blank. -/
def machineIDFile (L : Lib) (w : World) (path : String) : Option Bytes :=
  match readFile w.fs path with
  | .ok b =>
    let id := L.trimSpace b
    if id ≠ [] then some id else none
  | .error _ => none

/-- The Linux branch of `getMachineID`. -/
def linuxMachineID (L : Lib) (w : World) : Option Bytes :=
  if w.goos = .linux then
    match machineIDFile L w "/etc/machine-id" with
    | some id => some id
    | none => machineIDFile L w "/var/lib/dbus/machine-id"
  else none

/-- The macOS branch of `getMachineID`. -/
def darwinMachineID (w : World) : Option Bytes :=
  if w.goos = .darwin then
    let r := runCmdOutput (ascii "ioreg")
      [ascii "-rd1", ascii "-c", ascii "IOPlatformExpertDevice"]
    match r.2 with
    | none => ioregUUID (r.1.splitOn 0x0A)
    | some _ => none
  else none

/-- The Windows branch of `getMachineID`. -/
def windowsMachineID (L : Lib) (w : World) : Option Bytes :=
  if w.goos = .windows then
    let r := runCmdOutput (ascii "reg")
      [ascii "query", ascii "HKEY_LOCAL_MACHINE\\SOFTWARE\\Microsoft\\Cryptography",
        ascii "/v", ascii "MachineGuid"]
    match r.2 with
    | none => regMachineGuid L (r.1.splitOn 0x0A)
    | some _ => none
  else none

/-- Go `getMachineID`. -/
def getMachineID (L : Lib) (w : World) : Except Err Bytes :=
  match linuxMachineID L w with
  | some id => .ok id
  | none =>
    match darwinMachineID w with
    | some id => .ok id
    | none =>
      match windowsMachineID L w with
      | some id => .ok id
      | none => macFallback w

/-- Go `persistActivation`: copies the token file to `activationFile`. -/
def persistActivation (o : WriteOutcome) (w : World) (tokenPath : String) : Option Err × World :=
  match readFile w.fs tokenPath with
  | .error e => (some e, w)
  | .ok b =>
    let r := writeFile o w.fs w.activationFile b
    (r.1, { w with fs := r.2 })

/-- Go `isActivated`: `os.Stat(activationFile)` succeeds. -/
def isActivated (w : World) : Bool := (w.fs w.activationFile).isSome

/-- The struct `copyToken` of `verifyTokenFile`: the parsed token with the
signature cleared. -/
def copyToken (t : Token) : Token :=
  { machineID := t.machineID, programHash := t.programHash, expiry := t.expiry,
    extra := t.extra, signature := [] }

/-- The payload `verifyTokenFile` rebuilds: `json.Marshal(copyToken)`. -/
def verifierPayload (t : Token) : Bytes := marshal (copyToken t)

/-- Go `verifyTokenFile`: the returned error (`none` for nil) and the machine
afterwards. `o` is the outcome of the one `ioutil.WriteFile` the call may
make. -/
def verifyTokenFile (L : Lib) (o : WriteOutcome) (w : World) (tokenPath : String) :
    Option Err × World :=
  match readFile w.fs tokenPath with
  | .error e => (some e, w)
  | .ok b =>
    match unmarshal b with
    | .error e => (some (.json e), w)
    | .ok t =>
      match parsePublicKey L pubKeyPEM with
      | .error e => (some e, w)
      | .ok pk =>
        let payload := verifierPayload t
        match verifySignature L pk payload t.signature with
        | some e => (some (.signatureVerifyFailed e), w)
        | none =>
          match L.parseRFC3339 t.expiry with
          | none => (some .timeParse, w)
          | some exp =>
            if exp < w.now then (some (.tokenExpired exp), w)
            else
              match computeProgramHash L w with
              | .error e => (some e, w)
              | .ok localHash =>
                if localHash ≠ t.programHash then
                  (some (.programHashMismatch t.programHash localHash), w)
                else
                  match getMachineID L w with
                  | .error e => (some e, w)
                  | .ok localMID =>
                    if localMID ≠ t.machineID then
                      (some (.machineIDMismatch t.machineID localMID), w)
                    else
                      match persistActivation o w tokenPath with
                      | (some e, w1) => (some (.persistActivation e), w1)
                      | (none, w1) => (none, w1)

/-! ## `client-side/main.go` -/

/-- The lines `main` of the verifier prints. -/
inductive Line
  | programStart
  | alreadyActivated
  | usage
  | noTokenFile
  | activationFailed (e : Err)
  | activationSuccess
deriving DecidableEq

/-- Go `main` of the verifier, with `args` for `os.Args` (program name first):
the exit status, the lines printed by `main` itself and the machine
afterwards. Every path that ends normally leaves `main` by returning, which
is exit status 0: the program never calls `os.Exit`. With an empty
`os.Args` and no activation record the usage line indexes `os.Args[0]`,
which panics: exit status 2, nothing more printed. -/
def clientMain (L : Lib) (o : WriteOutcome) (w : World) (args : List String) :
    Nat × List Line × World :=
  if isActivated w then (0, [.programStart, .alreadyActivated], w)
  else if args.length < 2 then
    match args with
    | [] => (2, [.programStart], w)
    | _ :: _ => (0, [.programStart, .usage, .noTokenFile], w)
  else
    let tokenPath := args.getD 1 ""
    match verifyTokenFile L o w tokenPath with
    | (some e, w1) => (0, [.programStart, .activationFailed e], w1)
    | (none, w1) => (0, [.programStart, .activationSuccess], w1)

/-! ## `server-side/signer.go` -/

/-- The values of the command-line flags of the signer. -/
structure SignerArgs where
  priv : String
  machineID : Bytes
  programHash : Bytes
  expiry : Bytes
  extra : Bytes
  out : String

/-- Go `loadPrivateKey`: PKCS#8 first, PKCS#1 as the fallback. -/
def loadPrivateKey (L : Lib) (fs : FS) (path : String) : Option RSAPrivateKey :=
  match readFile fs path with
  | .error _ => none
  | .ok b =>
    match L.pemDecode b with
    | none => none
    | some block =>
      match L.parsePKCS8PrivateKey block with
      | some (.rsa k) => some k
      | _ => L.parsePKCS1PrivateKey block

/-- Go `signToekn`: base64 of the PSS signature of the SHA-256 digest. -/
def signToekn (L : Lib) (rand : Bytes) (priv : RSAPrivateKey) (payload : Bytes) : Option Bytes :=
  let h := L.sha256 payload
  match L.signPSS rand priv h with
  | none => none
  | some sig => some (b64Encode sig)

/-- The token `main` of the signer builds from the flags, before it is
signed: the `Signature` field has its zero value. -/
def signerToken (a : SignerArgs) : Token :=
  { machineID := a.machineID, programHash := a.programHash, expiry := a.expiry,
    extra := a.extra, signature := [] }

/-- The payload the signer signs: `json.Marshal(t)` before `t.Signature` is
set. -/
def signerPayload (a : SignerArgs) : Bytes := marshal (signerToken a)

/-- The assignment `t.Signature = sig`. -/
def withSignature (t : Token) (sig : Bytes) : Token :=
  { machineID := t.machineID, programHash := t.programHash, expiry := t.expiry,
    extra := t.extra, signature := sig }

/-- Go `main` of the signer after flag parsing: the exit status and the
filesystem afterwards. `rand` is what `rand.Reader` yields and `o` the
outcome of the final `ioutil.WriteFile`. -/
def signerMain (L : Lib) (rand : Bytes) (o : WriteOutcome) (fs : FS) (a : SignerArgs) :
    Nat × FS :=
  if a.machineID = [] ∨ a.programHash = [] ∨ a.expiry = [] then (1, fs)
  else
    match loadPrivateKey L fs a.priv with
    | none => (1, fs)
    | some priv =>
      let t := signerToken a
      let payload := signerPayload a
      match signToekn L rand priv payload with
      | none => (1, fs)
      | some sig =>
        let t1 : Token := withSignature t sig
        let outb := marshalIndent t1
        match writeFile o fs a.out outb with
        | (some _, fs1) => (1, fs1)
        | (none, fs1) => (0, fs1)

/-! ## A small concrete environment

A stand-in library and machines on which the programs can be evaluated. -/

/-- A fixed key pair. -/
def testKey : RSAPrivateKey := ⟨⟨3233, 17⟩, 2753⟩

/-- A stand-in library: the digest is the message itself and the signature of
a digest is that digest reversed, so a signature is accepted for exactly the
payload it was made over. -/
def testLib : Lib where
  pemDecode := fun b => if b = [] then none else some b
  parsePKIXPublicKey := fun _ => some (.rsa testKey.pub)
  parsePKCS8PrivateKey := fun _ => some (.rsa testKey)
  parsePKCS1PrivateKey := fun _ => none
  sha256 := fun b => b
  verifyPSS := fun pk h sig => pk = testKey.pub && sig = h.reverse
  signPSS := fun _ priv h => if priv = testKey then some h.reverse else none
  parseRFC3339 := fun s =>
    if s = ascii "2099-01-01T00:00:00Z" then some 4070908800000000000
    else if s = ascii "2000-01-01T00:00:00Z" then some 946684800000000000
    else none
  trimSpace := fun b => trimSet b (ascii " \n")
  fields := fun b => (b.splitOn 0x20).filter (fun f => f ≠ [])

/-- A filesystem holding the given files. -/
def filesOf : List (String × Bytes) → FS
  | [] => fun _ => none
  | (p, b) :: rest => fun q => if q = p then some b else filesOf rest q

/-- The issuer's filesystem: one private key file. -/
def issuerFS : FS := filesOf [("private.pem", ascii "KEY")]

/-- Flags of a signer run for the program whose file contents are `binary`. -/
def issueArgs (mid expiry : Bytes) : SignerArgs :=
  { priv := "private.pem", machineID := mid, programHash := hexEncode (ascii "binary"),
    expiry := expiry, extra := [], out := "token.json" }

/-- The token file such a signer run writes (empty when it writes none). -/
def issuedFile (mid expiry : Bytes) : Bytes :=
  ((signerMain testLib [] .ok issuerFS (issueArgs mid expiry)).2 "token.json").getD []

/-- A Linux machine with the file `token` at `token.json`, the executable
`exe`, the machine id `mid` and the clock at `now`; no activation record. -/
def clientWorld (token exe mid : Bytes) (now : Int) : World :=
  { fs := filesOf [("token.json", token), ("/usr/bin/app", exe),
      ("/etc/machine-id", mid ++ ascii "\n")],
    goos := .linux
    executable := some "/usr/bin/app"
    interfaces := none
    now := now
    activationFile := "/tmp/myprogram_activation.json" }

/-- The instant 2099-01-01T00:00:00Z in nanoseconds. -/
def t2099 : Int := 4070908800000000000

/-- A token file with a well-formed but wrong signature and an expiry that
does not parse. -/
def forgedFile : Bytes :=
  marshalIndent ⟨ascii "AA:BB:CC", ascii "00", ascii "never", [], ascii "AAAA"⟩

/-- A machine with the forged token on which neither the executable nor any
machine id can be read. -/
def bareWorld : World :=
  { fs := filesOf [("token.json", forgedFile)]
    goos := .other
    executable := none
    interfaces := none
    now := 0
    activationFile := "/tmp/myprogram_activation.json" }

/-- A machine that is not Linux, with a loopback interface and two others. -/
def macWorld : World :=
  { fs := filesOf []
    goos := .darwin
    executable := none
    interfaces := some [⟨5, [0, 0, 0, 0, 0, 0]⟩, ⟨3, []⟩, ⟨3, [0x82, 0xFF, 0xD9, 0x2D, 0xE2, 0xDD]⟩]
    now := 0
    activationFile := "/tmp/myprogram_activation.json" }

/-- The token the verifier parses from `issuedFile`. -/
def issuedToken (mid expiry : Bytes) : Token :=
  match unmarshal (issuedFile mid expiry) with
  | .ok t => t
  | .error _ => Token.zero

/-- The instant 2000-01-01T00:00:00Z in nanoseconds. -/
def t2000 : Int := 946684800000000000

/-- A machine in 2099 holding a token issued for another machine and another
program, expired since 2000. -/
def staleWorld : World :=
  clientWorld (issuedFile (ascii "AA:BB:CC") (ascii "2000-01-01T00:00:00Z"))
    (ascii "another binary") (ascii "DD:EE:FF") t2099

/-- The machine a token was issued for, running the program it was issued for,
with the clock exactly at the expiry of the token. -/
def boundaryWorld : World :=
  clientWorld (issuedFile (ascii "AA:BB:CC") (ascii "2099-01-01T00:00:00Z"))
    (ascii "binary") (ascii "AA:BB:CC") t2099

/-- The same machine one nanosecond later. -/
def lateWorld : World :=
  clientWorld (issuedFile (ascii "AA:BB:CC") (ascii "2099-01-01T00:00:00Z"))
    (ascii "binary") (ascii "AA:BB:CC") (t2099 + 1)

/-- Whether a machine-id file is unreadable or blank after trimming. -/
def blankFile (L : Lib) (w : World) (path : String) : Prop :=
  w.fs path = none ∨ ∃ b, w.fs path = some b ∧ L.trimSpace b = []

/-- Whether `getMachineID` passes over an interface: it is loopback or has no
hardware address. -/
def skipped (itf : Interface) : Prop :=
  ¬ (itf.flags &&& flagLoopback = 0 ∧ 0 < itf.hardwareAddr.length)

instance (itf : Interface) : Decidable (skipped itf) := by
  unfold skipped
  infer_instance

/-- A Linux machine whose two machine-id files are blank and missing. -/
def blankLinuxWorld : World :=
  { fs := filesOf [("/etc/machine-id", ascii "\n")]
    goos := .linux
    executable := none
    interfaces := some [⟨5, [0, 0, 0, 0, 0, 0]⟩, ⟨3, [0x82, 0xFF, 0xD9, 0x2D, 0xE2, 0xDD]⟩]
    now := 0
    activationFile := "/tmp/myprogram_activation.json" }

/-- The expiry string of the sample tokens. -/
def expiry2099 : Bytes := ascii "2099-01-01T00:00:00Z"

/-- The machine a sample token was issued for, running the program it was
issued for, long before the expiry. -/
def earlyWorld : World :=
  clientWorld (issuedFile (ascii "AA:BB:CC") expiry2099) (ascii "binary") (ascii "AA:BB:CC") 0

/-- A machine whose machine id is the single byte 0xFF, which is not valid
UTF-8, with the token the signer issues for that machine id. -/
def rawIDWorld : World :=
  clientWorld (issuedFile [0xFF] expiry2099) (ascii "binary") [0xFF] 0

/-- The machine of `earlyWorld` with one bit of the token file flipped: the
colon (0x3A) at index 21, inside the value of machine_id, is now the control
byte 0x1A. -/
def bitFlipWorld : World :=
  clientWorld ((issuedFile (ascii "AA:BB:CC") expiry2099).set 21 0x1A) (ascii "binary")
    (ascii "AA:BB:CC") 0

/-- The machine of `earlyWorld` with one bit of the token file flipped: the
last byte of the value of machine_id, the letter C at index 26, is now the
letter B. -/
def letterFlipWorld : World :=
  clientWorld ((issuedFile (ascii "AA:BB:CC") expiry2099).set 26 0x42) (ascii "binary")
    (ascii "AA:BB:CC") 0

/-- A machine with machine id `A<B` and the token issued for it with one bit
flipped: the hex digit `c` (0x63) at index 25, inside the escape the signer
wrote for `<` in the value of machine_id, is now the capital `C` (0x43). -/
def caseFlipWorld : World :=
  clientWorld ((issuedFile (ascii "A<B") expiry2099).set 25 0x43) (ascii "binary")
    (ascii "A<B") 0

/-- A machine holding a token issued for another machine and another
program, with the clock exactly at the expiry of the token. -/
def instantWorld : World :=
  clientWorld (issuedFile (ascii "AA:BB:CC") (ascii "2000-01-01T00:00:00Z"))
    (ascii "another binary") (ascii "DD:EE:FF") t2000

/-- A machine holding a token issued for another machine and another
program, long before the expiry of the token. -/
def otherProgramWorld : World :=
  clientWorld (issuedFile (ascii "AA:BB:CC") expiry2099) (ascii "another binary")
    (ascii "DD:EE:FF") 0

/-- A machine holding a token issued for another machine, running the program
the token was issued for, long before the expiry of the token. -/
def otherMachineWorld : World :=
  clientWorld (issuedFile (ascii "AA:BB:CC") expiry2099) (ascii "binary") (ascii "DD:EE:FF") 0

/-- Flags of a signer run whose extra field is the single byte 0xFF, which is
not valid UTF-8. -/
def rawExtraArgs : SignerArgs :=
  { priv := "private.pem", machineID := ascii "AA:BB:CC",
    programHash := hexEncode (ascii "binary"), expiry := expiry2099, extra := [0xFF],
    out := "token.json" }

/-- The machine the token of `rawExtraArgs` is issued for, holding the token
file that signer run writes. -/
def rawExtraWorld : World :=
  clientWorld (((signerMain testLib [] .ok issuerFS rawExtraArgs).2 "token.json").getD [])
    (ascii "binary") (ascii "AA:BB:CC") 0

/-! ## Notions used in the statements and proofs -/

/-- Whether every byte is JSON whitespace. -/
def allSpace (ws : Bytes) : Prop := ws.all isSpace = true

/-- The text of one object member with a string value, followed by `rest`. -/
def memberText (ws1 key ws2 v rest : Bytes) : Bytes :=
  ws1 ++ quote key ++ 0x3A :: (ws2 ++ quote v ++ rest)

/-- The text of the five members of a token and the closing brace, with the
whitespace `ws1` before each key but the first, `ws2` after each colon and
`ws3` before the closing brace. -/
def tokenText (ws1 ws2 ws3 : Bytes) (t : Token) (tail : Bytes) : Bytes :=
  memberText [] (Field.name .machineID) ws2 t.machineID (0x2C ::
    memberText ws1 (Field.name .programHash) ws2 t.programHash (0x2C ::
      memberText ws1 (Field.name .expiry) ws2 t.expiry (0x2C ::
        memberText ws1 (Field.name .extra) ws2 t.extra (0x2C ::
          memberText ws1 (Field.name .signature) ws2 t.signature (ws3 ++ 0x7D :: tail)))))

/-- The string `json.Unmarshal` reads back from the JSON string written for
`s`, with fuel: every invalid UTF-8 byte replaced by U+FFFD, the rest
unchanged. -/
def coerceFrom : Nat → Bytes → Bytes
  | _, [] => []
  | 0, _ :: _ => []
  | fuel + 1, b :: rest =>
    if b.val < 0x80 then b :: coerceFrom fuel rest
    else
      let d := decodeRune (b :: rest)
      if d.2 = 1 then [0xEF, 0xBF, 0xBD] ++ coerceFrom fuel rest
      else (b :: rest).take d.2 ++ coerceFrom fuel ((b :: rest).drop d.2)

/-- The string with every invalid UTF-8 byte replaced by U+FFFD. -/
def toValidUTF8 (s : Bytes) : Bytes := coerceFrom s.length s

/-- The token with every field passed through `toValidUTF8`. -/
def coerceToken (t : Token) : Token :=
  { machineID := toValidUTF8 t.machineID, programHash := toValidUTF8 t.programHash,
    expiry := toValidUTF8 t.expiry, extra := toValidUTF8 t.extra,
    signature := toValidUTF8 t.signature }

/-- Whether the five fields of a token are valid UTF-8. -/
def Token.valid (t : Token) : Prop :=
  validUTF8 t.machineID = true ∧ validUTF8 t.programHash = true ∧ validUTF8 t.expiry = true ∧
    validUTF8 t.extra = true ∧ validUTF8 t.signature = true

/-- Valid UTF-8 as a derivation: ASCII bytes and multi-byte sequences that
`decodeRune` accepts. -/
inductive Valid : Bytes → Prop
  | nil : Valid []
  | ascii (c : Byte) (rest : Bytes) (hc : c.val < 0x80) (h : Valid rest) : Valid (c :: rest)
  | wide (c : Byte) (rest : Bytes) (hc : ¬ c.val < 0x80) (hd : (decodeRune (c :: rest)).2 ≠ 1)
      (h : Valid ((c :: rest).drop (decodeRune (c :: rest)).2)) : Valid (c :: rest)

/-! ## Theorems -/

/-! ### UTF-8, JSON and base64 round trips -/

theorem byte_eq (n : Nat) (b : Byte) (h : n = b.val) : byte n = b := by
  apply Fin.ext
  simp only [byte]
  omega

/-- The shapes of a decoding. -/
theorem decodeRune_cases (p0 : Byte) (t : Bytes) :
    ((decodeRune (p0 :: t)).2 = 1 ∧
      (p0.val < 0x80 ∨ (decodeRune (p0 :: t)).1 = runeError)) ∨
    (∃ b1 t1, t = b1 :: t1 ∧ 0xC2 ≤ p0.val ∧ p0.val < 0xE0 ∧ 0x80 ≤ b1.val ∧ b1.val ≤ 0xBF ∧
      decodeRune (p0 :: t) = (p0.val % 32 * 64 + b1.val % 64, 2)) ∨
    (∃ b1 b2 t2, t = b1 :: b2 :: t2 ∧ 0xE0 ≤ p0.val ∧ p0.val < 0xF0 ∧
      (if p0.val = 0xE0 then 0xA0 else 0x80) ≤ b1.val ∧
      b1.val ≤ (if p0.val = 0xED then 0x9F else 0xBF) ∧ 0x80 ≤ b2.val ∧ b2.val ≤ 0xBF ∧
      decodeRune (p0 :: t) = (p0.val % 16 * 4096 + b1.val % 64 * 64 + b2.val % 64, 3)) ∨
    (∃ b1 b2 b3 t3, t = b1 :: b2 :: b3 :: t3 ∧ 0xF0 ≤ p0.val ∧ p0.val < 0xF5 ∧
      (if p0.val = 0xF0 then 0x90 else 0x80) ≤ b1.val ∧
      b1.val ≤ (if p0.val = 0xF4 then 0x8F else 0xBF) ∧ 0x80 ≤ b2.val ∧ b2.val ≤ 0xBF ∧
      0x80 ≤ b3.val ∧ b3.val ≤ 0xBF ∧
      decodeRune (p0 :: t) =
        (p0.val % 8 * 262144 + b1.val % 64 * 4096 + b2.val % 64 * 64 + b3.val % 64, 4)) := by
  unfold decodeRune
  dsimp only
  by_cases h1 : p0.val < 0x80
  · left; rw [if_pos h1]; exact ⟨rfl, Or.inl h1⟩
  rw [if_neg h1]
  by_cases h2 : p0.val < 0xC2
  · left; rw [if_pos h2]; exact ⟨rfl, Or.inr rfl⟩
  rw [if_neg h2]
  by_cases h3 : p0.val < 0xE0
  · rw [if_pos h3]
    rcases t with _ | ⟨b1, t1⟩
    · left; exact ⟨rfl, Or.inr rfl⟩
    · dsimp only
      by_cases hb : 0x80 ≤ b1.val ∧ b1.val ≤ 0xBF
      · right; left
        rw [if_pos hb]
        exact ⟨b1, t1, rfl, by omega, h3, hb.1, hb.2, rfl⟩
      · left; rw [if_neg hb]; exact ⟨rfl, Or.inr rfl⟩
  rw [if_neg h3]
  by_cases h4 : p0.val < 0xF0
  · rw [if_pos h4]
    rcases t with _ | ⟨b1, _ | ⟨b2, t2⟩⟩
    · left; exact ⟨rfl, Or.inr rfl⟩
    · left; exact ⟨rfl, Or.inr rfl⟩
    · dsimp only
      by_cases hb : (if p0.val = 0xE0 then 0xA0 else 0x80) ≤ b1.val ∧
            b1.val ≤ (if p0.val = 0xED then 0x9F else 0xBF)
      · rw [if_pos hb]
        by_cases hc : 0x80 ≤ b2.val ∧ b2.val ≤ 0xBF
        · right; right; left
          rw [if_pos hc]
          exact ⟨b1, b2, t2, rfl, by omega, h4, hb.1, hb.2, hc.1, hc.2, rfl⟩
        · left; rw [if_neg hc]; exact ⟨rfl, Or.inr rfl⟩
      · left; rw [if_neg hb]; exact ⟨rfl, Or.inr rfl⟩
  rw [if_neg h4]
  by_cases h5 : p0.val < 0xF5
  · rw [if_pos h5]
    rcases t with _ | ⟨b1, _ | ⟨b2, _ | ⟨b3, t3⟩⟩⟩
    · left; exact ⟨rfl, Or.inr rfl⟩
    · left; exact ⟨rfl, Or.inr rfl⟩
    · left; exact ⟨rfl, Or.inr rfl⟩
    · dsimp only
      by_cases hb : (if p0.val = 0xF0 then 0x90 else 0x80) ≤ b1.val ∧
            b1.val ≤ (if p0.val = 0xF4 then 0x8F else 0xBF)
      · rw [if_pos hb]
        by_cases hc : 0x80 ≤ b2.val ∧ b2.val ≤ 0xBF
        · rw [if_pos hc]
          by_cases hd : 0x80 ≤ b3.val ∧ b3.val ≤ 0xBF
          · right; right; right
            rw [if_pos hd]
            exact ⟨b1, b2, b3, t3, rfl, by omega, h5, hb.1, hb.2, hc.1, hc.2, hd.1, hd.2, rfl⟩
          · left; rw [if_neg hd]; exact ⟨rfl, Or.inr rfl⟩
        · left; rw [if_neg hc]; exact ⟨rfl, Or.inr rfl⟩
      · left; rw [if_neg hb]; exact ⟨rfl, Or.inr rfl⟩
  · left; rw [if_neg h5]; exact ⟨rfl, Or.inr rfl⟩


theorem decodeRune_width_pos (p0 : Byte) (t : Bytes) : 1 ≤ (decodeRune (p0 :: t)).2 := by
  rcases decodeRune_cases p0 t with ⟨h, _⟩ | ⟨_, _, _, _, _, _, _, h⟩ |
    ⟨_, _, _, _, _, _, _, _, _, _, h⟩ | ⟨_, _, _, _, _, _, _, _, _, _, _, _, _, h⟩ <;>
  rw [h] <;> simp

theorem decodeRune_narrow (p0 : Byte) (t : Bytes) (h0 : ¬ p0.val < 0x80)
    (h : (decodeRune (p0 :: t)).2 = 1) : (decodeRune (p0 :: t)).1 = runeError := by
  rcases decodeRune_cases p0 t with ⟨_, h1 | h1⟩ | ⟨_, _, _, _, _, _, _, hd⟩ |
    ⟨_, _, _, _, _, _, _, _, _, _, hd⟩ | ⟨_, _, _, _, _, _, _, _, _, _, _, _, _, hd⟩
  · exact absurd h1 h0
  · exact h1
  · rw [hd] at h; cases h
  · rw [hd] at h; cases h
  · rw [hd] at h; cases h

/-- A multi-byte decoding re-encodes to the bytes it read, which are a prefix
of the input, and depends on those bytes only. -/
theorem decodeRune_wide (p0 : Byte) (t : Bytes) (h : (decodeRune (p0 :: t)).2 ≠ 1) :
    0x80 ≤ p0.val ∧
    (decodeRune (p0 :: t)).2 ≤ (p0 :: t).length ∧
    ((p0 :: t).take (decodeRune (p0 :: t)).2).length = (decodeRune (p0 :: t)).2 ∧
    encodeRune (decodeRune (p0 :: t)).1 = (p0 :: t).take (decodeRune (p0 :: t)).2 ∧
    ∀ rest, decodeRune ((p0 :: t).take (decodeRune (p0 :: t)).2 ++ rest)
      = decodeRune (p0 :: t) := by
  rcases decodeRune_cases p0 t with ⟨h1, _⟩ | ⟨b1, t1, rfl, h1, h2, h3, h4, hd⟩ |
    ⟨b1, b2, t2, rfl, h1, h2, h3, h4, h5, h6, hd⟩ |
    ⟨b1, b2, b3, t3, rfl, h1, h2, h3, h4, h5, h6, h7, h8, hd⟩
  · exact absurd h1 h
  · rw [hd]
    refine ⟨by omega, by simp, by simp, ?_, ?_⟩
    · simp only [encodeRune]
      rw [if_neg (by omega), if_pos (by omega)]
      simp only [List.take, List.cons.injEq, and_true]
      exact ⟨byte_eq _ _ (by omega), byte_eq _ _ (by omega)⟩
    · intro rest
      simp only [List.take, List.cons_append, List.nil_append, decodeRune]
      rw [if_neg (by omega), if_neg (by omega), if_pos h2, if_pos ⟨h3, h4⟩]
  · rw [hd]
    refine ⟨by omega, by simp, by simp, ?_, ?_⟩
    · simp only [encodeRune]
      split_ifs at h3 h4 <;>
      · rw [if_neg (by omega), if_neg (by omega), if_neg (by omega), if_pos (by omega)]
        simp only [List.take, List.cons.injEq, and_true]
        exact ⟨byte_eq _ _ (by omega), byte_eq _ _ (by omega), byte_eq _ _ (by omega)⟩
    · intro rest
      simp only [List.take, List.cons_append, List.nil_append, decodeRune]
      rw [if_neg (by omega), if_neg (by omega), if_neg (by omega), if_pos h2,
        if_pos ⟨h3, h4⟩, if_pos ⟨h5, h6⟩]
  · rw [hd]
    refine ⟨by omega, by simp, by simp, ?_, ?_⟩
    · simp only [encodeRune]
      split_ifs at h3 h4 <;>
      · rw [if_neg (by omega), if_neg (by omega), if_neg (by omega), if_neg (by omega)]
        simp only [List.take, List.cons.injEq, and_true]
        exact ⟨byte_eq _ _ (by omega), byte_eq _ _ (by omega), byte_eq _ _ (by omega),
          byte_eq _ _ (by omega)⟩
    · intro rest
      simp only [List.take, List.cons_append, List.nil_append, decodeRune]
      rw [if_neg (by omega), if_neg (by omega), if_neg (by omega), if_neg (by omega),
        if_pos h2, if_pos ⟨h3, h4⟩, if_pos ⟨h5, h6⟩, if_pos ⟨h7, h8⟩]

theorem hexVal_hexDigit (n : Nat) : hexVal (hexDigit n) = some (n % 16) := by
  unfold hexDigit hexVal
  have hlt : n % 16 < 16 := Nat.mod_lt _ (by decide)
  by_cases h : n % 16 < 10
  · rw [if_pos h]
    have hv : (byte (48 + n % 16)).val = 48 + n % 16 := by simp only [byte]; omega
    rw [hv, if_pos (by omega)]
    congr 1
    omega
  · rw [if_neg h]
    have hv : (byte (87 + n % 16)).val = 87 + n % 16 := by simp only [byte]; omega
    rw [hv, if_neg (by omega), if_pos (by omega)]
    congr 1
    omega

theorem hexVal_zero : hexVal 0x30 = some 0 := by decide

theorem hexVal_two : hexVal 0x32 = some 2 := by decide

theorem getu4_escape (x y : Nat) (tail : Bytes) :
    getu4 (0x5C :: 0x75 :: 0x30 :: 0x30 :: hexDigit x :: hexDigit y :: tail)
      = some (x % 16 * 16 + y % 16) := by
  simp only [getu4, hexVal_hexDigit, hexVal_zero, and_self, if_true]
  congr 1
  omega

theorem getu4_202 (y : Nat) (tail : Bytes) :
    getu4 (0x5C :: 0x75 :: 0x32 :: 0x30 :: 0x32 :: hexDigit y :: tail)
      = some (0x2020 + y % 16) := by
  simp only [getu4, hexVal_hexDigit, hexVal_zero, hexVal_two, and_self, if_true]

theorem scanString_quote (fuel : Nat) (tail : Bytes) :
    scanString (fuel + 1) (0x22 :: tail) = some ([], tail) := by
  rw [scanString.eq_3, if_pos rfl]

theorem scanString_step (fuel : Nat) (c : Byte) (rest piece r : Bytes) (hc : c ≠ 0x22)
    (hstep : unquoteStep (c :: rest) = some (piece, r)) :
    scanString (fuel + 1) (c :: rest)
      = (scanString fuel r).map (fun x => (piece ++ x.1, x.2)) := by
  rw [scanString.eq_3, if_neg hc, hstep]

theorem htmlSafe_spec (b : Byte) (h : htmlSafe b.val = true) :
    0x20 ≤ b.val ∧ b.val < 0x80 ∧ b ≠ 0x22 ∧ b ≠ 0x5C := by
  simp only [htmlSafe, Bool.and_eq_true, decide_eq_true_eq, bne_iff_ne, ne_eq] at h
  obtain ⟨⟨⟨⟨⟨⟨h1, h2⟩, h3⟩, h4⟩, _⟩, _⟩, _⟩ := h
  exact ⟨h1, h2, fun h => h3 (by rw [h]; rfl), fun h => h4 (by rw [h]; rfl)⟩

theorem unquoteStep_plain (b : Byte) (tail : Bytes) (h : htmlSafe b.val = true) :
    unquoteStep (b :: tail) = some ([b], tail) := by
  obtain ⟨h1, h2, h3, h4⟩ := htmlSafe_spec b h
  unfold unquoteStep
  dsimp only
  rw [if_neg h4, if_neg (by rintro (h | h); exact h3 h; omega), if_pos h2]

theorem unquoteStep_simple (tail : Bytes) :
    unquoteStep (0x5C :: 0x22 :: tail) = some ([0x22], tail) ∧
    unquoteStep (0x5C :: 0x5C :: tail) = some ([0x5C], tail) ∧
    unquoteStep (0x5C :: 0x62 :: tail) = some ([0x08], tail) ∧
    unquoteStep (0x5C :: 0x66 :: tail) = some ([0x0C], tail) ∧
    unquoteStep (0x5C :: 0x6E :: tail) = some ([0x0A], tail) ∧
    unquoteStep (0x5C :: 0x72 :: tail) = some ([0x0D], tail) ∧
    unquoteStep (0x5C :: 0x74 :: tail) = some ([0x09], tail) := by
  unfold unquoteStep
  dsimp only
  refine ⟨?_, ?_, ?_, ?_, ?_, ?_, ?_⟩
  · rw [if_pos rfl, if_pos (by decide)]
  · rw [if_pos rfl, if_pos (by decide)]
  · rw [if_pos rfl, if_neg (by decide), if_pos rfl]
  · rw [if_pos rfl, if_neg (by decide), if_neg (by decide), if_pos rfl]
  · rw [if_pos rfl, if_neg (by decide), if_neg (by decide), if_neg (by decide), if_pos rfl]
  · rw [if_pos rfl, if_neg (by decide), if_neg (by decide), if_neg (by decide),
      if_neg (by decide), if_pos rfl]
  · rw [if_pos rfl, if_neg (by decide), if_neg (by decide), if_neg (by decide),
      if_neg (by decide), if_neg (by decide), if_pos rfl]

theorem encodeRune_ascii (b : Byte) (hb : b.val < 0x80) : encodeRune b.val = [b] := by
  unfold encodeRune
  rw [if_pos (by omega), byte_eq _ _ rfl]

theorem unquoteStep_escapeAscii (b : Byte) (tail : Bytes) (hb : b.val < 0x80) :
    unquoteStep (escapeAscii b ++ tail) = some ([b], tail) := by
  unfold escapeAscii
  by_cases c1 : b = 0x5C ∨ b = 0x22
  · rw [if_pos c1]
    rcases c1 with rfl | rfl
    · exact (unquoteStep_simple tail).2.1
    · exact (unquoteStep_simple tail).1
  rw [if_neg c1]
  by_cases c2 : b = 0x08
  · subst c2; exact (unquoteStep_simple tail).2.2.1
  rw [if_neg c2]
  by_cases c3 : b = 0x0C
  · subst c3; exact (unquoteStep_simple tail).2.2.2.1
  rw [if_neg c3]
  by_cases c4 : b = 0x0A
  · subst c4; exact (unquoteStep_simple tail).2.2.2.2.1
  rw [if_neg c4]
  by_cases c5 : b = 0x0D
  · subst c5; exact (unquoteStep_simple tail).2.2.2.2.2.1
  rw [if_neg c5]
  by_cases c6 : b = 0x09
  · subst c6; exact (unquoteStep_simple tail).2.2.2.2.2.2
  rw [if_neg c6]
  have hg := getu4_escape (b.val / 16) (b.val % 16) tail
  have hrr : b.val / 16 % 16 * 16 + b.val % 16 % 16 = b.val := by omega
  rw [hrr] at hg
  simp only [List.cons_append, List.nil_append]
  unfold unquoteStep
  dsimp only
  rw [if_pos rfl]
  rw [if_neg (by decide), if_neg (by decide), if_neg (by decide), if_neg (by decide),
    if_neg (by decide), if_neg (by decide), if_pos rfl]
  rw [hg]
  simp only [List.drop_succ_cons, List.drop_zero]
  rw [if_neg (by omega), encodeRune_ascii b hb]

theorem unquoteStep_202x (r : Nat) (tail : Bytes) (h : r = 0x2028 ∨ r = 0x2029) :
    unquoteStep ([0x5C, 0x75, 0x32, 0x30, 0x32, hexDigit (r % 16)] ++ tail)
      = some (encodeRune r, tail) := by
  have hg := getu4_202 (r % 16) tail
  have hrr : 0x2020 + r % 16 % 16 = r := by rcases h with rfl | rfl <;> rfl
  rw [hrr] at hg
  simp only [List.cons_append, List.nil_append]
  unfold unquoteStep
  dsimp only
  rw [if_pos rfl]
  rw [if_neg (by decide), if_neg (by decide), if_neg (by decide), if_neg (by decide),
    if_neg (by decide), if_neg (by decide), if_pos rfl]
  rw [hg]
  simp only [List.drop_succ_cons, List.drop_zero]
  rw [if_neg (by omega)]

theorem unquoteStep_wide (p0 : Byte) (t tail : Bytes) (h : (decodeRune (p0 :: t)).2 ≠ 1) :
    unquoteStep ((p0 :: t).take (decodeRune (p0 :: t)).2 ++ tail)
      = some ((p0 :: t).take (decodeRune (p0 :: t)).2, tail) := by
  obtain ⟨h1, h2, h3, h4, h5⟩ := decodeRune_wide p0 t h
  have hw := decodeRune_width_pos p0 t
  obtain ⟨k, hk⟩ : ∃ k, (decodeRune (p0 :: t)).2 = k + 1 := ⟨_, (Nat.sub_add_cancel hw).symm⟩
  have hd := h5 tail
  rw [hk] at hd h3 ⊢
  rw [hk] at h4
  simp only [List.take_succ_cons, List.cons_append] at hd h3 ⊢
  unfold unquoteStep
  dsimp only
  have e1 : p0 ≠ 0x5C := fun h => by rw [h] at h1; revert h1; decide
  have e2 : ¬ (p0 = 0x22 ∨ p0.val < 0x20) := by
    rintro (h | h)
    · rw [h] at h1; revert h1; decide
    · omega
  rw [if_neg e1, if_neg e2, if_neg (by omega)]
  rw [hd, hk, h4]
  simp only [List.take_succ_cons, List.drop_succ_cons]
  congr 2
  have hl : (List.take k t).length = k := by simpa using h3
  rw [List.drop_append_eq_append_drop, hl]
  simp

theorem drop_length_le (p0 : Byte) (t : Bytes) (n : Nat) (h : (p0 :: t).length ≤ n + 1) :
    ((p0 :: t).drop (decodeRune (p0 :: t)).2).length ≤ n := by
  have := decodeRune_width_pos p0 t
  simp only [List.length_drop, List.length_cons] at h ⊢
  omega

theorem unquoteStep_fffd (tail : Bytes) :
    unquoteStep (0xEF :: 0xBF :: 0xBD :: tail) = some ([0xEF, 0xBF, 0xBD], tail) := by
  have h := unquoteStep_wide 0xEF [0xBF, 0xBD] tail (by decide)
  have e : decodeRune [0xEF, 0xBF, 0xBD] = (0xFFFD, 3) := by decide
  rw [e] at h
  exact h

/-- Reading back a quoted string: the scanner returns the string with its
invalid UTF-8 bytes replaced by U+FFFD, and the input after the closing
quote. -/
theorem scanString_quoteBody (n : Nat) : ∀ (s : Bytes), s.length ≤ n →
    ∀ (fuel : Nat) (tail : Bytes), (quoteBody n s).length < fuel →
      scanString fuel (quoteBody n s ++ 0x22 :: tail) = some (coerceFrom n s, tail) := by
  induction n with
  | zero =>
    intro s hl fuel tail hf
    have hs : s = [] := List.length_eq_zero.mp (Nat.le_zero.mp hl)
    subst hs
    obtain ⟨f, rfl⟩ : ∃ f, fuel = f + 1 := ⟨fuel - 1, by omega⟩
    simp only [quoteBody, coerceFrom, List.nil_append]
    exact scanString_quote f tail
  | succ n ih =>
    intro s hl fuel tail hf
    rcases s with _ | ⟨b, rest⟩
    · obtain ⟨f, rfl⟩ : ∃ f, fuel = f + 1 := ⟨fuel - 1, by omega⟩
      simp only [quoteBody, coerceFrom, List.nil_append]
      exact scanString_quote f tail
    · obtain ⟨f, rfl⟩ : ∃ f, fuel = f + 1 := ⟨fuel - 1, by omega⟩
      rw [coerceFrom.eq_3]
      rw [quoteBody.eq_3] at hf ⊢
      have hlr : rest.length ≤ n := by simpa using hl
      by_cases hb : b.val < 0x80
      · rw [if_pos hb] at hf ⊢
        rw [if_pos hb]
        by_cases hs : htmlSafe b.val = true
        · rw [if_pos hs] at hf ⊢
          obtain ⟨_, _, h3, _⟩ := htmlSafe_spec b hs
          simp only [List.length_cons] at hf
          rw [List.cons_append, scanString_step f b _ [b] _ h3 (unquoteStep_plain b _ hs),
            ih rest hlr f tail (by omega)]
          rfl
        · rw [if_neg hs] at hf ⊢
          have h5c : ∃ e, escapeAscii b = 0x5C :: e := by
            unfold escapeAscii; split_ifs <;> exact ⟨_, rfl⟩
          obtain ⟨e, he⟩ := h5c
          have hstep := unquoteStep_escapeAscii b (quoteBody n rest ++ 0x22 :: tail) hb
          rw [List.append_assoc]
          rw [he] at hstep hf ⊢
          simp only [List.cons_append, List.length_cons, List.length_append] at hstep hf ⊢
          rw [scanString_step f _ _ [b] _ (by decide) hstep, ih rest hlr f tail (by omega)]
          rfl
      · rw [if_neg hb] at hf ⊢
        rw [if_neg hb]
        dsimp only at hf ⊢
        by_cases hd : (decodeRune (b :: rest)).2 = 1
        · have hr := decodeRune_narrow b rest hb hd
          rw [if_pos ⟨hr, hd⟩] at hf ⊢
          rw [if_pos hd]
          simp only [List.cons_append, List.nil_append, List.length_cons] at hf ⊢
          rw [scanString_step f _ _ _ _ (by decide) (unquoteStep_fffd _),
            ih rest hlr f tail (by omega)]
          rfl
        · rw [if_neg (fun h => hd h.2)] at hf ⊢
          rw [if_neg hd]
          obtain ⟨h1, h2, h3, h4, h5⟩ := decodeRune_wide b rest hd
          have hdl := drop_length_le b rest n hl
          by_cases hu : (decodeRune (b :: rest)).1 = 0x2028 ∨ (decodeRune (b :: rest)).1 = 0x2029
          · rw [if_pos hu] at hf ⊢
            have hstep := unquoteStep_202x _ (quoteBody n ((b :: rest).drop
              (decodeRune (b :: rest)).2) ++ 0x22 :: tail) hu
            rw [List.append_assoc]
            simp only [List.cons_append, List.nil_append, List.length_cons,
              List.length_append] at hstep hf ⊢
            rw [scanString_step f _ _ _ _ (by decide) hstep, ih _ hdl f tail (by omega), h4]
            rfl
          · rw [if_neg hu] at hf ⊢
            have hstep := unquoteStep_wide b rest (quoteBody n ((b :: rest).drop
              (decodeRune (b :: rest)).2) ++ 0x22 :: tail) hd
            have hw := decodeRune_width_pos b rest
            obtain ⟨k, hk⟩ : ∃ k, (decodeRune (b :: rest)).2 = k + 1 :=
              ⟨_, (Nat.sub_add_cancel hw).symm⟩
            rw [List.append_assoc]
            rw [hk] at hstep hf ⊢
            simp only [List.take_succ_cons, List.cons_append, List.length_cons,
              List.length_append] at hstep hf ⊢
            have hb22 : b ≠ 0x22 := fun h => by rw [h] at h1; revert h1; decide
            rw [scanString_step f _ _ _ _ hb22 hstep]
            rw [hk] at hdl
            rw [ih _ hdl f tail (by omega)]
            rfl

theorem coerceFrom_valid (n : Nat) : ∀ (s : Bytes), validFrom n s = true →
    coerceFrom n s = s := by
  induction n with
  | zero =>
    intro s hv
    rcases s with _ | ⟨b, rest⟩
    · rfl
    · rw [validFrom.eq_2] at hv; cases hv
  | succ n ih =>
    intro s hv
    rcases s with _ | ⟨b, rest⟩
    · rfl
    · rw [validFrom.eq_3] at hv
      rw [coerceFrom.eq_3]
      by_cases hb : b.val < 0x80
      · rw [if_pos hb] at hv ⊢
        rw [ih rest hv]
      · rw [if_neg hb] at hv ⊢
        dsimp only at hv ⊢
        by_cases hd : (decodeRune (b :: rest)).2 = 1
        · rw [if_pos hd] at hv; cases hv
        · rw [if_neg hd] at hv ⊢
          rw [ih _ hv, List.take_append_drop]

theorem toValidUTF8_valid (s : Bytes) (h : validUTF8 s = true) : toValidUTF8 s = s :=
  coerceFrom_valid _ s h

/-- The scanner call made on the text after an opening quote, for a quoted
string. -/
theorem scanString_quoted (s tail : Bytes) :
    scanString (quoteBody s.length s ++ 0x22 :: tail).length
      (quoteBody s.length s ++ 0x22 :: tail) = some (toValidUTF8 s, tail) := by
  apply scanString_quoteBody s.length s (le_refl _)
  simp only [List.length_append, List.length_cons]
  omega

theorem skipWs_nonspace (c : Byte) (tail : Bytes) (hc : isSpace c = false) :
    skipWs (c :: tail) = c :: tail := by
  simp only [skipWs, hc, Bool.false_eq_true, if_false]

theorem skipWs_allSpace (ws : Bytes) (c : Byte) (tail : Bytes) (hws : allSpace ws)
    (hc : isSpace c = false) : skipWs (ws ++ c :: tail) = c :: tail := by
  induction ws with
  | nil => exact skipWs_nonspace c tail hc
  | cons w ws ih =>
    unfold allSpace at hws
    rw [List.all_cons, Bool.and_eq_true] at hws
    simp only [List.cons_append, skipWs, hws.1, if_true]
    exact ih hws.2

theorem scanValue_quoted (ws v tail : Bytes) (hws : allSpace ws) (fuel depth : Nat) :
    scanValue (fuel + 1) depth (ws ++ quote v ++ tail)
      = some (JKind.str (toValidUTF8 v), tail) := by
  rw [scanValue.eq_2]
  have e : ws ++ quote v ++ tail
      = ws ++ 0x22 :: (quoteBody v.length v ++ 0x22 :: tail) := by
    simp [quote]
  rw [e, skipWs_allSpace ws 0x22 _ hws (by decide)]
  dsimp only
  rw [if_neg (by decide), if_neg (by decide)]
  unfold scanScalar
  rw [if_pos rfl, scanString_quoted v tail]
  rfl

/-- One member of the top-level object with a string value: the decoder
stores it and goes on after the comma, or stops at the closing brace. -/
theorem decodeMembers_member (fuel : Nat) (t : Token) (bad : Bool) (ws1 key ws2 v rest : Bytes)
    (h1 : allSpace ws1) (h2 : allSpace ws2) (hk : validUTF8 key = true) :
    decodeMembers (fuel + 1) t bad (memberText ws1 key ws2 v rest) =
      match skipWs rest with
      | [] => none
      | c :: r4 =>
        if c = 0x2C then
          decodeMembers fuel (storeMember t bad key (JKind.str (toValidUTF8 v))).1
            (storeMember t bad key (JKind.str (toValidUTF8 v))).2 r4
        else if c = 0x7D then
          some ((storeMember t bad key (JKind.str (toValidUTF8 v))).1,
            (storeMember t bad key (JKind.str (toValidUTF8 v))).2, r4)
        else none := by
  rw [decodeMembers.eq_2]
  have e : memberText ws1 key ws2 v rest
      = ws1 ++ 0x22 :: (quoteBody key.length key ++ 0x22 :: 0x3A :: (ws2 ++ quote v ++ rest)) := by
    simp [memberText, quote]
  rw [e, skipWs_allSpace ws1 0x22 _ h1 (by decide)]
  dsimp only
  rw [if_neg (by decide), scanString_quoted key _, toValidUTF8_valid key hk]
  dsimp only
  have e2 : skipWs (0x3A :: (ws2 ++ quote v ++ rest)) = 0x3A :: (ws2 ++ quote v ++ rest) :=
    skipWs_nonspace 0x3A _ (by decide)
  rw [e2]
  dsimp only
  rw [if_neg (by decide), scanValue_quoted ws2 v rest h2]

theorem fieldOf_name (f : Field) : fieldOf f.name = some f := by
  cases f <;> decide

theorem validUTF8_name (f : Field) : validUTF8 f.name = true := by
  cases f <;> decide

theorem storeMember_name (t : Token) (bad : Bool) (f : Field) (v : Bytes) :
    storeMember t bad f.name (JKind.str v) = (t.set f v, bad) := by
  unfold storeMember
  rw [fieldOf_name]

theorem skipWs_comma (tail : Bytes) : skipWs (0x2C :: tail) = 0x2C :: tail :=
  skipWs_nonspace 0x2C _ (by decide)

theorem decodeMembers_tokenText (ws1 ws2 ws3 : Bytes) (h1 : allSpace ws1) (h2 : allSpace ws2)
    (h3 : allSpace ws3) (t : Token) (fuel : Nat) (tail : Bytes) :
    decodeMembers (fuel + 5) Token.zero false (tokenText ws1 ws2 ws3 t tail)
      = some (coerceToken t, false, tail) := by
  unfold tokenText
  rw [decodeMembers_member (fuel + 4) _ _ [] _ ws2 _ _ (by rfl) h2
    (validUTF8_name _), skipWs_comma]
  dsimp only
  rw [if_pos rfl, storeMember_name]
  rw [decodeMembers_member (fuel + 3) _ _ ws1 _ ws2 _ _ h1 h2 (validUTF8_name _), skipWs_comma]
  dsimp only
  rw [if_pos rfl, storeMember_name]
  rw [decodeMembers_member (fuel + 2) _ _ ws1 _ ws2 _ _ h1 h2 (validUTF8_name _), skipWs_comma]
  dsimp only
  rw [if_pos rfl, storeMember_name]
  rw [decodeMembers_member (fuel + 1) _ _ ws1 _ ws2 _ _ h1 h2 (validUTF8_name _), skipWs_comma]
  dsimp only
  rw [if_pos rfl, storeMember_name]
  rw [decodeMembers_member fuel _ _ ws1 _ ws2 _ _ h1 h2 (validUTF8_name _),
    skipWs_allSpace ws3 0x7D _ h3 (by decide)]
  dsimp only
  rw [if_neg (by decide), if_pos rfl, storeMember_name]
  rfl

theorem marshalIndent_eq (t : Token) :
    marshalIndent t = 0x7B :: 0x0A :: 0x20 :: 0x20 :: tokenText [0x0A, 0x20, 0x20] [0x20] [0x0A] t [] := by
  have e1 : ascii "\x7b\n  \"machine_id\": "
      = [0x7B, 0x0A, 0x20, 0x20] ++ quote (Field.name .machineID) ++ [0x3A, 0x20] := by decide
  have e2 : ascii ",\n  \"program_hash\": "
      = [0x2C, 0x0A, 0x20, 0x20] ++ quote (Field.name .programHash) ++ [0x3A, 0x20] := by decide
  have e3 : ascii ",\n  \"expiry\": "
      = [0x2C, 0x0A, 0x20, 0x20] ++ quote (Field.name .expiry) ++ [0x3A, 0x20] := by decide
  have e4 : ascii ",\n  \"extra\": "
      = [0x2C, 0x0A, 0x20, 0x20] ++ quote (Field.name .extra) ++ [0x3A, 0x20] := by decide
  have e5 : ascii ",\n  \"signature\": "
      = [0x2C, 0x0A, 0x20, 0x20] ++ quote (Field.name .signature) ++ [0x3A, 0x20] := by decide
  have e6 : ascii "\n\x7d" = [0x0A, 0x7D] := by decide
  unfold marshalIndent tokenText memberText
  rw [e1, e2, e3, e4, e5, e6]
  simp only [List.append_assoc, List.cons_append, List.nil_append]

theorem marshal_eq (t : Token) : marshal t = 0x7B :: tokenText [] [] [] t [] := by
  have e1 : ascii "\x7b\"machine_id\":"
      = [0x7B] ++ quote (Field.name .machineID) ++ [0x3A] := by decide
  have e2 : ascii ",\"program_hash\":"
      = [0x2C] ++ quote (Field.name .programHash) ++ [0x3A] := by decide
  have e3 : ascii ",\"expiry\":" = [0x2C] ++ quote (Field.name .expiry) ++ [0x3A] := by decide
  have e4 : ascii ",\"extra\":" = [0x2C] ++ quote (Field.name .extra) ++ [0x3A] := by decide
  have e5 : ascii ",\"signature\":"
      = [0x2C] ++ quote (Field.name .signature) ++ [0x3A] := by decide
  have e6 : ascii "\x7d" = [0x7D] := by decide
  unfold marshal tokenText memberText
  rw [e1, e2, e3, e4, e5, e6]
  simp only [List.append_assoc, List.cons_append, List.nil_append]

theorem tokenText_head (ws1 ws2 ws3 : Bytes) (t : Token) (tail : Bytes) :
    ∃ r, tokenText ws1 ws2 ws3 t tail = 0x22 :: r ∧ 4 ≤ r.length := by
  refine ⟨_, by simp only [tokenText, memberText, quote, List.nil_append, List.cons_append]; rfl, ?_⟩
  simp only [List.length_append, List.length_cons]
  omega

theorem unmarshal_tokenText (pre ws1 ws2 ws3 : Bytes) (hp : allSpace pre) (h1 : allSpace ws1)
    (h2 : allSpace ws2) (h3 : allSpace ws3) (t : Token) :
    unmarshal (0x7B :: (pre ++ tokenText ws1 ws2 ws3 t [])) = .ok (coerceToken t) := by
  obtain ⟨r, hr, hlen⟩ := tokenText_head ws1 ws2 ws3 t []
  unfold unmarshal
  rw [skipWs_nonspace 0x7B _ (by decide)]
  dsimp only
  rw [if_pos rfl, hr, skipWs_allSpace pre 0x22 _ hp (by decide)]
  dsimp only
  rw [if_neg (by decide)]
  obtain ⟨f, hf⟩ : ∃ f, (pre ++ 0x22 :: r).length + 1 = f + 5 :=
    ⟨(pre ++ 0x22 :: r).length - 4, by simp only [List.length_append, List.length_cons]; omega⟩
  rw [hf, ← hr, decodeMembers_tokenText ws1 ws2 ws3 h1 h2 h3 t f []]
  rfl

/-- Reading back the indented token file gives the token with the invalid
UTF-8 bytes of its fields replaced by U+FFFD. -/
theorem unmarshal_marshalIndent_coerce (t : Token) :
    unmarshal (marshalIndent t) = .ok (coerceToken t) := by
  rw [marshalIndent_eq]
  exact unmarshal_tokenText [0x0A, 0x20, 0x20] [0x0A, 0x20, 0x20] [0x20] [0x0A]
    (by rfl) (by rfl) (by rfl) (by rfl) t

theorem coerceToken_valid (t : Token) (ht : t.valid) : coerceToken t = t := by
  obtain ⟨h1, h2, h3, h4, h5⟩ := ht
  unfold coerceToken
  rw [toValidUTF8_valid _ h1, toValidUTF8_valid _ h2, toValidUTF8_valid _ h3,
    toValidUTF8_valid _ h4, toValidUTF8_valid _ h5]

/-- Reading back the indented token file gives the token, when its fields
are valid UTF-8. -/
theorem unmarshal_marshalIndent (t : Token) (ht : t.valid) :
    unmarshal (marshalIndent t) = .ok t := by
  rw [unmarshal_marshalIndent_coerce, coerceToken_valid t ht]

/-- Reading back the compact encoding gives the token, when its fields
are valid UTF-8. -/
theorem unmarshal_marshal (t : Token) (ht : t.valid) : unmarshal (marshal t) = .ok t := by
  rw [marshal_eq]
  have h := unmarshal_tokenText [] [] [] [] (by rfl) (by rfl) (by rfl) (by rfl) t
  rw [coerceToken_valid t ht] at h
  exact h

theorem b64Char_lt (v : Nat) : (b64Char v).val < 0x80 ∧ 0x20 ≤ (b64Char v).val ∧
    b64Char v ≠ 0x22 ∧ b64Char v ≠ 0x5C ∧ htmlSafe (b64Char v).val = true := by
  have key : ∀ c : Byte, (c.val = 43 ∨ c.val = 47 ∨ (48 ≤ c.val ∧ c.val ≤ 57) ∨
      (65 ≤ c.val ∧ c.val ≤ 90) ∨ (97 ≤ c.val ∧ c.val ≤ 122)) →
      c.val < 0x80 ∧ 0x20 ≤ c.val ∧ c ≠ 0x22 ∧ c ≠ 0x5C ∧ htmlSafe c.val = true := by
    decide
  apply key
  unfold b64Char
  split_ifs with h1 h2 h3 h4
  · right; right; right; left
    simp only [byte]; omega
  · right; right; right; right
    simp only [byte]; omega
  · right; right; left
    simp only [byte]; omega
  · left; rfl
  · right; left; rfl

theorem b64Val_b64Char (v : Nat) (h : v < 64) : b64Val (b64Char v) = some v := by
  unfold b64Char
  split_ifs with h1 h2 h3 h4
  · have hv : (byte (65 + v)).val = 65 + v := by simp only [byte]; omega
    unfold b64Val
    rw [hv, if_pos (by omega)]
    congr 1; omega
  · have hv : (byte (71 + v)).val = 71 + v := by simp only [byte]; omega
    unfold b64Val
    rw [hv, if_neg (by omega), if_pos (by omega)]
    congr 1; omega
  · have hv : (byte (v - 4)).val = v - 4 := by simp only [byte]; omega
    unfold b64Val
    rw [hv, if_neg (by omega), if_neg (by omega), if_pos (by omega)]
    congr 1; omega
  · subst h4; decide
  · have : v = 63 := by omega
    subst this; decide

theorem decodeQuantum_full (v1 v2 v3 v4 : Nat) (h1 : v1 < 64) (h2 : v2 < 64) (h3 : v3 < 64)
    (h4 : v4 < 64) (rest : Bytes) :
    decodeQuantum (b64Char v1 :: b64Char v2 :: b64Char v3 :: b64Char v4 :: rest) []
      = some ([v1, v2, v3, v4], rest) := by
  rw [decodeQuantum.eq_2, b64Val_b64Char v1 h1]
  dsimp only
  rw [if_neg (by simp), decodeQuantum.eq_2, b64Val_b64Char v2 h2]
  dsimp only
  rw [if_neg (by simp), decodeQuantum.eq_2, b64Val_b64Char v3 h3]
  dsimp only
  rw [if_neg (by simp), decodeQuantum.eq_2, b64Val_b64Char v4 h4]
  dsimp only
  rw [if_pos (by rfl)]
  rfl

theorem decodeQuantum_pad1 (v1 v2 v3 : Nat) (h1 : v1 < 64) (h2 : v2 < 64) (h3 : v3 < 64) :
    decodeQuantum [b64Char v1, b64Char v2, b64Char v3, 61] [] = some ([v1, v2, v3], []) := by
  rw [decodeQuantum.eq_2, b64Val_b64Char v1 h1]
  dsimp only
  rw [if_neg (by simp), decodeQuantum.eq_2, b64Val_b64Char v2 h2]
  dsimp only
  rw [if_neg (by simp), decodeQuantum.eq_2, b64Val_b64Char v3 h3]
  dsimp only
  rw [if_neg (by simp), decodeQuantum.eq_2]
  rfl

theorem decodeQuantum_pad2 (v1 v2 : Nat) (h1 : v1 < 64) (h2 : v2 < 64) :
    decodeQuantum [b64Char v1, b64Char v2, 61, 61] [] = some ([v1, v2], []) := by
  rw [decodeQuantum.eq_2, b64Val_b64Char v1 h1]
  dsimp only
  rw [if_neg (by simp), decodeQuantum.eq_2, b64Val_b64Char v2 h2]
  dsimp only
  rw [if_neg (by simp), decodeQuantum.eq_2]
  rfl

theorem b64DecodeLoop_encode (x : Bytes) :
    ∀ fuel, x.length ≤ fuel → b64DecodeLoop fuel (b64Encode x) = some x := by
  induction x using b64Encode.induct with
  | case1 a b c rest ih =>
    intro fuel hf
    obtain ⟨f, rfl⟩ : ∃ f, fuel = f + 1 := ⟨fuel - 1, by simp at hf; omega⟩
    rw [b64Encode, b64DecodeLoop.eq_3,
      decodeQuantum_full _ _ _ _ (by omega) (by omega) (by omega) (by omega)]
    dsimp only
    rw [ih f (by simp at hf; omega)]
    dsimp only [quantumBytes]
    simp only [List.cons_append, List.nil_append, Option.some.injEq, List.cons.injEq, and_true]
    exact ⟨byte_eq _ _ (by omega), byte_eq _ _ (by omega), byte_eq _ _ (by omega)⟩
  | case2 a b =>
    intro fuel hf
    obtain ⟨f, rfl⟩ : ∃ f, fuel = f + 1 := ⟨fuel - 1, by simp at hf; omega⟩
    rw [b64Encode, b64DecodeLoop.eq_3,
      decodeQuantum_pad1 _ _ _ (by omega) (by omega) (by omega)]
    dsimp only
    rw [b64DecodeLoop.eq_1]
    dsimp only [quantumBytes]
    simp only [List.append_nil, Option.some.injEq, List.cons.injEq, and_true]
    exact ⟨byte_eq _ _ (by omega), byte_eq _ _ (by omega)⟩
  | case3 a =>
    intro fuel hf
    obtain ⟨f, rfl⟩ : ∃ f, fuel = f + 1 := ⟨fuel - 1, by simp at hf; omega⟩
    rw [b64Encode, b64DecodeLoop.eq_3, decodeQuantum_pad2 _ _ (by omega) (by omega)]
    dsimp only
    rw [b64DecodeLoop.eq_1]
    dsimp only [quantumBytes]
    simp only [List.append_nil, Option.some.injEq, List.cons.injEq, and_true]
    exact byte_eq _ _ (by omega)
  | case4 =>
    intro fuel _
    rw [b64Encode, b64DecodeLoop.eq_1]

theorem length_le_b64Encode (x : Bytes) : x.length ≤ (b64Encode x).length := by
  induction x using b64Encode.induct with
  | case1 a b c rest ih => rw [b64Encode]; simp only [List.length_cons]; omega
  | case2 a b => rw [b64Encode]; simp
  | case3 a => rw [b64Encode]; simp
  | case4 => simp

/-- Decoding the base64 encoding of a byte string gives the byte string. -/
theorem b64Decode_b64Encode (x : Bytes) : b64Decode (b64Encode x) = some x :=
  b64DecodeLoop_encode x _ (length_le_b64Encode x)

theorem validFrom_ascii (s : Bytes) (h : ∀ c ∈ s, c.val < 0x80) :
    ∀ n, s.length ≤ n → validFrom n s = true := by
  induction s with
  | nil => intro n _; cases n <;> rfl
  | cons c s ih =>
    intro n hn
    obtain ⟨m, rfl⟩ : ∃ m, n = m + 1 := ⟨n - 1, by simp at hn; omega⟩
    rw [validFrom.eq_3, if_pos (h c (List.mem_cons_self _ _))]
    exact ih (fun x hx => h x (List.mem_cons_of_mem _ hx)) m (by simp at hn; omega)

theorem b64Encode_ascii (x : Bytes) : ∀ c ∈ b64Encode x, c.val < 0x80 := by
  induction x using b64Encode.induct with
  | case1 a b c rest ih =>
    rw [b64Encode]
    intro y hy
    simp only [List.mem_cons] at hy
    rcases hy with rfl | rfl | rfl | rfl | hy
    · exact (b64Char_lt _).1
    · exact (b64Char_lt _).1
    · exact (b64Char_lt _).1
    · exact (b64Char_lt _).1
    · exact ih y hy
  | case2 a b =>
    rw [b64Encode]
    intro y hy
    simp only [List.mem_cons, List.mem_singleton, List.not_mem_nil, or_false] at hy
    rcases hy with rfl | rfl | rfl | rfl
    · exact (b64Char_lt _).1
    · exact (b64Char_lt _).1
    · exact (b64Char_lt _).1
    · decide
  | case3 a =>
    rw [b64Encode]
    intro y hy
    simp only [List.mem_cons, List.mem_singleton, List.not_mem_nil, or_false] at hy
    rcases hy with rfl | rfl | rfl | rfl
    · exact (b64Char_lt _).1
    · exact (b64Char_lt _).1
    · decide
    · decide
  | case4 => intro y hy; cases hy

theorem validUTF8_b64Encode (x : Bytes) : validUTF8 (b64Encode x) = true :=
  validFrom_ascii _ (b64Encode_ascii x) _ (le_refl _)

theorem valid_of_validFrom (n : Nat) : ∀ s : Bytes, validFrom n s = true → Valid s := by
  induction n with
  | zero =>
    intro s h
    rcases s with _ | ⟨c, rest⟩
    · exact Valid.nil
    · rw [validFrom.eq_2] at h; cases h
  | succ n ih =>
    intro s h
    rcases s with _ | ⟨c, rest⟩
    · exact Valid.nil
    · rw [validFrom.eq_3] at h
      by_cases hc : c.val < 0x80
      · rw [if_pos hc] at h
        exact Valid.ascii c rest hc (ih rest h)
      · rw [if_neg hc] at h
        dsimp only at h
        by_cases hd : (decodeRune (c :: rest)).2 = 1
        · rw [if_pos hd] at h; cases h
        · rw [if_neg hd] at h
          exact Valid.wide c rest hc hd (ih _ h)

theorem validFrom_of_valid (s : Bytes) (h : Valid s) : ∀ n, s.length ≤ n → validFrom n s = true := by
  induction h with
  | nil => intro n _; cases n <;> rfl
  | ascii c rest hc _ ih =>
    intro n hn
    obtain ⟨m, rfl⟩ : ∃ m, n = m + 1 := ⟨n - 1, by simp at hn; omega⟩
    rw [validFrom.eq_3, if_pos hc]
    exact ih m (by simp at hn; omega)
  | wide c rest hc hd _ ih =>
    intro n hn
    obtain ⟨m, rfl⟩ : ∃ m, n = m + 1 := ⟨n - 1, by simp at hn; omega⟩
    rw [validFrom.eq_3, if_neg hc]
    dsimp only
    rw [if_neg hd]
    exact ih m (drop_length_le c rest m hn)

theorem validUTF8_iff (s : Bytes) : validUTF8 s = true ↔ Valid s :=
  ⟨valid_of_validFrom _ s, fun h => validFrom_of_valid s h _ (le_refl _)⟩

theorem valid_append (a b : Bytes) (ha : Valid a) (hb : Valid b) : Valid (a ++ b) := by
  induction ha with
  | nil => exact hb
  | ascii c rest hc _ ih => exact Valid.ascii c _ hc ih
  | wide c rest hc hd _ ih =>
    obtain ⟨_, h2, _, _, h5⟩ := decodeRune_wide c rest hd
    have e : decodeRune (c :: (rest ++ b)) = decodeRune (c :: rest) := by
      have := h5 ((c :: rest).drop (decodeRune (c :: rest)).2 ++ b)
      rwa [← List.append_assoc, List.take_append_drop] at this
    refine Valid.wide c (rest ++ b) hc (by rw [e]; exact hd) ?_
    rw [e, ← List.cons_append, List.drop_append_of_le_length h2]
    exact ih

theorem valid_single (c : Byte) (hc : c.val < 0x80) : Valid [c] :=
  Valid.ascii c [] hc Valid.nil

theorem decodeRune_two (p0 b1 : Byte) (t : Bytes) (h1 : 0xC2 ≤ p0.val) (h2 : p0.val < 0xE0)
    (h3 : 0x80 ≤ b1.val ∧ b1.val ≤ 0xBF) : (decodeRune (p0 :: b1 :: t)).2 = 2 := by
  unfold decodeRune
  dsimp only
  rw [if_neg (by omega), if_neg (by omega), if_pos h2, if_pos h3]

theorem decodeRune_three (p0 b1 b2 : Byte) (t : Bytes) (h1 : 0xE0 ≤ p0.val)
    (h2 : p0.val < 0xF0)
    (h3 : (if p0.val = 0xE0 then 0xA0 else 0x80) ≤ b1.val ∧
      b1.val ≤ (if p0.val = 0xED then 0x9F else 0xBF))
    (h4 : 0x80 ≤ b2.val ∧ b2.val ≤ 0xBF) : (decodeRune (p0 :: b1 :: b2 :: t)).2 = 3 := by
  unfold decodeRune
  dsimp only
  rw [if_neg (by omega), if_neg (by omega), if_neg (by omega), if_pos h2, if_pos h3, if_pos h4]

theorem decodeRune_four (p0 b1 b2 b3 : Byte) (t : Bytes) (h1 : 0xF0 ≤ p0.val)
    (h2 : p0.val < 0xF5)
    (h3 : (if p0.val = 0xF0 then 0x90 else 0x80) ≤ b1.val ∧
      b1.val ≤ (if p0.val = 0xF4 then 0x8F else 0xBF))
    (h4 : 0x80 ≤ b2.val ∧ b2.val ≤ 0xBF) (h5 : 0x80 ≤ b3.val ∧ b3.val ≤ 0xBF) :
    (decodeRune (p0 :: b1 :: b2 :: b3 :: t)).2 = 4 := by
  unfold decodeRune
  dsimp only
  rw [if_neg (by omega), if_neg (by omega), if_neg (by omega), if_neg (by omega), if_pos h2,
    if_pos h3, if_pos h4, if_pos h5]

theorem valid_encodeRune (r : Nat) : Valid (encodeRune r) := by
  unfold encodeRune
  split_ifs with h1 h2 h3 h4
  · exact valid_single _ (by simp only [byte]; omega)
  · have hv0 : (byte (0xC0 + r / 64)).val = 0xC0 + r / 64 := by simp only [byte]; omega
    have hv1 : (byte (0x80 + r % 64)).val = 0x80 + r % 64 := by simp only [byte]; omega
    have hw := decodeRune_two (byte (0xC0 + r / 64)) (byte (0x80 + r % 64)) []
      (by omega) (by omega) (by omega)
    refine Valid.wide _ _ (by omega) (by omega) ?_
    rw [hw]
    exact Valid.nil
  · rw [← validUTF8_iff]; decide
  · have hv0 : (byte (0xE0 + r / 4096)).val = 0xE0 + r / 4096 := by simp only [byte]; omega
    have hv1 : (byte (0x80 + r / 64 % 64)).val = 0x80 + r / 64 % 64 := by
      simp only [byte]; omega
    have hv2 : (byte (0x80 + r % 64)).val = 0x80 + r % 64 := by simp only [byte]; omega
    have hw := decodeRune_three (byte (0xE0 + r / 4096)) (byte (0x80 + r / 64 % 64))
      (byte (0x80 + r % 64)) [] (by omega) (by omega)
      (by constructor <;> split_ifs <;> omega) (by omega)
    refine Valid.wide _ _ (by omega) (by omega) ?_
    rw [hw]
    exact Valid.nil
  · have hv0 : (byte (0xF0 + r / 262144)).val = 0xF0 + r / 262144 := by
      simp only [byte]; omega
    have hv1 : (byte (0x80 + r / 4096 % 64)).val = 0x80 + r / 4096 % 64 := by
      simp only [byte]; omega
    have hv2 : (byte (0x80 + r / 64 % 64)).val = 0x80 + r / 64 % 64 := by
      simp only [byte]; omega
    have hv3 : (byte (0x80 + r % 64)).val = 0x80 + r % 64 := by simp only [byte]; omega
    have hw := decodeRune_four (byte (0xF0 + r / 262144)) (byte (0x80 + r / 4096 % 64))
      (byte (0x80 + r / 64 % 64)) (byte (0x80 + r % 64)) [] (by omega) (by omega)
      (by constructor <;> split_ifs <;> omega) (by omega) (by omega)
    refine Valid.wide _ _ (by omega) (by omega) ?_
    rw [hw]
    exact Valid.nil

theorem valid_of_some (a b piece r : Bytes) (hv : Valid a) (h : some (a, b) = some (piece, r)) :
    Valid piece := by
  simp only [Option.some.injEq, Prod.mk.injEq] at h
  rw [← h.1]
  exact hv

theorem valid_unquoteStep (s piece r : Bytes) (h : unquoteStep s = some (piece, r)) :
    Valid piece := by
  rcases s with _ | ⟨c, rest⟩
  · unfold unquoteStep at h; cases h
  unfold unquoteStep at h
  dsimp only at h
  by_cases h1 : c = 0x5C
  · rw [if_pos h1] at h
    rcases rest with _ | ⟨e, rest2⟩
    · cases h
    dsimp only at h
    by_cases e1 : e = 0x22 ∨ e = 0x5C ∨ e = 0x2F
    · rw [if_pos e1] at h
      refine valid_of_some _ _ _ _ (valid_single e ?_) h
      rcases e1 with rfl | rfl | rfl <;> decide
    rw [if_neg e1] at h
    by_cases e2 : e = 0x62
    · rw [if_pos e2] at h; exact valid_of_some _ _ _ _ (valid_single 0x08 (by decide)) h
    rw [if_neg e2] at h
    by_cases e3 : e = 0x66
    · rw [if_pos e3] at h; exact valid_of_some _ _ _ _ (valid_single 0x0C (by decide)) h
    rw [if_neg e3] at h
    by_cases e4 : e = 0x6E
    · rw [if_pos e4] at h; exact valid_of_some _ _ _ _ (valid_single 0x0A (by decide)) h
    rw [if_neg e4] at h
    by_cases e5 : e = 0x72
    · rw [if_pos e5] at h; exact valid_of_some _ _ _ _ (valid_single 0x0D (by decide)) h
    rw [if_neg e5] at h
    by_cases e6 : e = 0x74
    · rw [if_pos e6] at h; exact valid_of_some _ _ _ _ (valid_single 0x09 (by decide)) h
    rw [if_neg e6] at h
    by_cases e7 : e = 0x75
    · rw [if_pos e7] at h
      cases hg : getu4 (c :: e :: rest2) with
      | none => rw [hg] at h; cases h
      | some rr =>
        rw [hg] at h
        dsimp only at h
        by_cases hs : 0xD800 ≤ rr ∧ rr < 0xE000
        · rw [if_pos hs] at h
          cases hg1 : getu4 (List.drop 4 rest2) with
          | none => rw [hg1] at h; exact valid_of_some _ _ _ _ (valid_encodeRune _) h
          | some rr1 =>
            rw [hg1] at h
            dsimp only at h
            by_cases hp : rr < 0xDC00 ∧ 0xDC00 ≤ rr1 ∧ rr1 < 0xE000
            · rw [if_pos hp] at h; exact valid_of_some _ _ _ _ (valid_encodeRune _) h
            · rw [if_neg hp] at h; exact valid_of_some _ _ _ _ (valid_encodeRune _) h
        · rw [if_neg hs] at h; exact valid_of_some _ _ _ _ (valid_encodeRune _) h
    · rw [if_neg e7] at h; cases h
  rw [if_neg h1] at h
  by_cases h2 : c = 0x22 ∨ c.val < 0x20
  · rw [if_pos h2] at h; cases h
  rw [if_neg h2] at h
  by_cases h3 : c.val < 0x80
  · rw [if_pos h3] at h; exact valid_of_some _ _ _ _ (valid_single c h3) h
  · rw [if_neg h3] at h; exact valid_of_some _ _ _ _ (valid_encodeRune _) h

theorem valid_scanString (fuel : Nat) : ∀ (s out r : Bytes),
    scanString fuel s = some (out, r) → Valid out := by
  induction fuel with
  | zero =>
    intro s out r h
    rcases s with _ | ⟨c, rest⟩
    · rw [scanString.eq_1] at h; cases h
    · rw [scanString.eq_2] at h; cases h
  | succ n ih =>
    intro s out r h
    rcases s with _ | ⟨c, rest⟩
    · rw [scanString.eq_1] at h; cases h
    · rw [scanString.eq_3] at h
      by_cases hq : c = 0x22
      · rw [if_pos hq] at h
        exact valid_of_some _ _ _ _ Valid.nil h
      · rw [if_neg hq] at h
        cases hs : unquoteStep (c :: rest) with
        | none => rw [hs] at h; cases h
        | some pr =>
          obtain ⟨piece, r1⟩ := pr
          rw [hs] at h
          dsimp only at h
          cases hr : scanString n r1 with
          | none => rw [hr] at h; cases h
          | some x =>
            obtain ⟨o1, r2⟩ := x
            rw [hr] at h
            exact valid_of_some _ _ _ _
              (valid_append _ _ (valid_unquoteStep _ _ _ hs) (ih _ _ _ hr)) h

theorem map_kind_ne (k : JKind) (x : Option Bytes) (v r : Bytes) (hk : ∀ s, k ≠ JKind.str s)
    (h : x.map (fun r => (k, r)) = some (JKind.str v, r)) : False := by
  cases x with
  | none => cases h
  | some a =>
    simp only [Option.map_some', Option.some.injEq, Prod.mk.injEq] at h
    exact hk v h.1

theorem valid_scanScalar (c : Byte) (rest v r : Bytes)
    (h : scanScalar c rest = some (JKind.str v, r)) : Valid v := by
  unfold scanScalar at h
  by_cases h1 : c = 0x22
  · rw [if_pos h1] at h
    cases hs : scanString rest.length rest with
    | none => rw [hs] at h; cases h
    | some x =>
      obtain ⟨o, r1⟩ := x
      rw [hs] at h
      simp only [Option.map_some', Option.some.injEq, Prod.mk.injEq, JKind.str.injEq] at h
      rw [← h.1]
      exact valid_scanString _ _ _ _ hs
  rw [if_neg h1] at h
  by_cases h2 : c = 0x74
  · rw [if_pos h2] at h; exact (map_kind_ne _ _ _ _ (by intro s hs; cases hs) h).elim
  rw [if_neg h2] at h
  by_cases h3 : c = 0x66
  · rw [if_pos h3] at h; exact (map_kind_ne _ _ _ _ (by intro s hs; cases hs) h).elim
  rw [if_neg h3] at h
  by_cases h4 : c = 0x6E
  · rw [if_pos h4] at h; exact (map_kind_ne _ _ _ _ (by intro s hs; cases hs) h).elim
  rw [if_neg h4] at h
  by_cases h5 : c = 0x2D ∨ isDigit c = true
  · rw [if_pos h5] at h; exact (map_kind_ne _ _ _ _ (by intro s hs; cases hs) h).elim
  · rw [if_neg h5] at h; cases h

theorem valid_scanValue (fuel depth : Nat) (s v r : Bytes)
    (h : scanValue fuel depth s = some (JKind.str v, r)) : Valid v := by
  rcases fuel with _ | fuel
  · rw [scanValue.eq_1] at h; cases h
  rw [scanValue.eq_2] at h
  cases hs : skipWs s with
  | nil => rw [hs] at h; cases h
  | cons c rest =>
    rw [hs] at h
    dsimp only at h
    by_cases h1 : c = 0x7B
    · rw [if_pos h1] at h
      by_cases hd : maxNestingDepth < depth + 1
      · rw [if_pos hd] at h; cases h
      rw [if_neg hd] at h
      cases hs2 : skipWs rest with
      | nil => rw [hs2] at h; cases h
      | cons c2 rest2 =>
        rw [hs2] at h
        dsimp only at h
        by_cases h2 : c2 = 0x7D
        · rw [if_pos h2] at h; cases h
        · rw [if_neg h2] at h
          exact (map_kind_ne _ _ _ _ (by intro s hs; cases hs) h).elim
    rw [if_neg h1] at h
    by_cases h3 : c = 0x5B
    · rw [if_pos h3] at h
      by_cases hd : maxNestingDepth < depth + 1
      · rw [if_pos hd] at h; cases h
      rw [if_neg hd] at h
      cases hs2 : skipWs rest with
      | nil => rw [hs2] at h; cases h
      | cons c2 rest2 =>
        rw [hs2] at h
        dsimp only at h
        by_cases h2 : c2 = 0x5D
        · rw [if_pos h2] at h; cases h
        · rw [if_neg h2] at h
          exact (map_kind_ne _ _ _ _ (by intro s hs; cases hs) h).elim
    · rw [if_neg h3] at h
      exact valid_scanScalar c rest v r h

theorem valid_zero : Token.zero.valid := by
  unfold Token.valid Token.zero
  decide

theorem valid_set (t : Token) (f : Field) (v : Bytes) (ht : t.valid) (hv : Valid v) :
    (t.set f v).valid := by
  obtain ⟨h1, h2, h3, h4, h5⟩ := ht
  have hv1 := (validUTF8_iff v).mpr hv
  cases f <;> simp only [Token.set, Token.valid] <;> refine ⟨?_, ?_, ?_, ?_, ?_⟩ <;> assumption

theorem valid_storeMember (t : Token) (bad : Bool) (key : Bytes) (k : JKind) (ht : t.valid)
    (hk : ∀ v, k = JKind.str v → Valid v) : (storeMember t bad key k).1.valid := by
  unfold storeMember
  cases fieldOf key with
  | none => exact ht
  | some f =>
    cases k with
    | str v => exact valid_set t f v ht (hk v rfl)
    | null => exact ht
    | bool => exact ht
    | number => exact ht
    | array => exact ht
    | object => exact ht

theorem valid_decodeMembers (fuel : Nat) : ∀ (t : Token) (bad : Bool) (s : Bytes) (t1 : Token)
    (bad1 : Bool) (r : Bytes), t.valid → decodeMembers fuel t bad s = some (t1, bad1, r) →
    t1.valid := by
  induction fuel with
  | zero => intro t bad s t1 bad1 r _ h; rw [decodeMembers.eq_1] at h; cases h
  | succ n ih =>
    intro t bad s t1 bad1 r ht h
    rw [decodeMembers.eq_2] at h
    cases hs : skipWs s with
    | nil => rw [hs] at h; cases h
    | cons q rest =>
      rw [hs] at h
      dsimp only at h
      by_cases hq : q ≠ 0x22
      · rw [if_pos hq] at h; cases h
      rw [if_neg hq] at h
      cases hk : scanString rest.length rest with
      | none => rw [hk] at h; cases h
      | some x =>
        obtain ⟨key, r1⟩ := x
        rw [hk] at h
        dsimp only at h
        cases hs1 : skipWs r1 with
        | nil => rw [hs1] at h; cases h
        | cons colon r2 =>
          rw [hs1] at h
          dsimp only at h
          by_cases hc : colon ≠ 0x3A
          · rw [if_pos hc] at h; cases h
          rw [if_neg hc] at h
          cases hv : scanValue (r2.length + 1) 1 r2 with
          | none => rw [hv] at h; cases h
          | some y =>
            obtain ⟨k, r3⟩ := y
            rw [hv] at h
            dsimp only at h
            have hst : (storeMember t bad key k).1.valid :=
              valid_storeMember t bad key k ht (fun v hkv => by
                subst hkv
                exact valid_scanValue _ _ _ _ _ hv)
            cases hs3 : skipWs r3 with
            | nil => rw [hs3] at h; cases h
            | cons c r4 =>
              rw [hs3] at h
              dsimp only at h
              by_cases h1 : c = 0x2C
              · rw [if_pos h1] at h
                exact ih _ _ _ _ _ _ hst h
              rw [if_neg h1] at h
              by_cases h2 : c = 0x7D
              · rw [if_pos h2] at h
                simp only [Option.some.injEq, Prod.mk.injEq] at h
                rw [← h.1]
                exact hst
              · rw [if_neg h2] at h; cases h

/-- Every token `unmarshal` returns has valid UTF-8 fields. -/
theorem valid_unmarshal (data : Bytes) (t : Token) (h : unmarshal data = .ok t) : t.valid := by
  unfold unmarshal at h
  cases hs : skipWs data with
  | nil => rw [hs] at h; cases h
  | cons c rest =>
    rw [hs] at h
    dsimp only at h
    by_cases h1 : c = 0x7B
    · rw [if_pos h1] at h
      cases hs2 : skipWs rest with
      | nil => rw [hs2] at h; cases h
      | cons c2 rest2 =>
        rw [hs2] at h
        dsimp only at h
        by_cases h2 : c2 = 0x7D
        · rw [if_pos h2] at h
          by_cases h3 : skipWs rest2 = []
          · rw [if_pos h3] at h; cases h; exact valid_zero
          · rw [if_neg h3] at h; cases h
        rw [if_neg h2] at h
        cases hd : decodeMembers (rest.length + 1) Token.zero false (c2 :: rest2) with
        | none => rw [hd] at h; cases h
        | some x =>
          obtain ⟨t1, bad1, r⟩ := x
          rw [hd] at h
          dsimp only at h
          by_cases h3 : skipWs r = []
          · rw [if_pos h3] at h
            by_cases h4 : bad1 = true
            · rw [if_pos h4] at h; cases h
            · rw [if_neg h4] at h
              cases h
              exact valid_decodeMembers _ _ _ _ _ _ _ valid_zero hd
          · rw [if_neg h3] at h; cases h
    · rw [if_neg h1] at h
      cases hv : scanValue (data.length + 1) 0 (c :: rest) with
      | none => rw [hv] at h; cases h
      | some x =>
        obtain ⟨k, r⟩ := x
        rw [hv] at h
        dsimp only at h
        by_cases h3 : skipWs r = []
        · rw [if_pos h3] at h
          by_cases h4 : k = JKind.null
          · rw [if_pos h4] at h; cases h; exact valid_zero
          · rw [if_neg h4] at h; cases h
        · rw [if_neg h3] at h; cases h

/-- The compact encoding is injective on tokens with valid UTF-8 fields. -/
theorem marshal_injective (t1 t2 : Token) (h1 : t1.valid) (h2 : t2.valid)
    (h : marshal t1 = marshal t2) : t1 = t2 := by
  have e1 := unmarshal_marshal t1 h1
  have e2 := unmarshal_marshal t2 h2
  rw [h, e2] at e1
  cases e1
  rfl


theorem decodeRune_fffd (tail : Bytes) :
    decodeRune (0xEF :: 0xBF :: 0xBD :: tail) = (0xFFFD, 3) := by
  obtain ⟨_, _, _, _, h5⟩ := decodeRune_wide 0xEF [0xBF, 0xBD] (by decide)
  have e : decodeRune [0xEF, 0xBF, 0xBD] = (0xFFFD, 3) := by decide
  have h := h5 tail
  rw [e] at h
  exact h

/-- Quoting the coerced string gives the text quoted for the string itself. -/
theorem quoteBody_coerceFrom (n : Nat) : ∀ (s : Bytes), s.length ≤ n →
    ∀ m, (coerceFrom n s).length ≤ m → quoteBody m (coerceFrom n s) = quoteBody n s := by
  induction n with
  | zero =>
    intro s hl m _
    have hs : s = [] := List.length_eq_zero.mp (Nat.le_zero.mp hl)
    subst hs
    rw [coerceFrom.eq_1, quoteBody.eq_1, quoteBody.eq_1]
  | succ n ih =>
    intro s hl m hm
    rcases s with _ | ⟨b, rest⟩
    · rw [coerceFrom.eq_1, quoteBody.eq_1, quoteBody.eq_1]
    · have hlr : rest.length ≤ n := by simpa using hl
      rw [coerceFrom.eq_3] at hm ⊢
      rw [quoteBody.eq_3 n b rest]
      by_cases hb : b.val < 0x80
      · rw [if_pos hb] at hm ⊢
        rw [if_pos hb]
        obtain ⟨m1, rfl⟩ : ∃ m1, m = m1 + 1 := ⟨m - 1, by simp at hm; omega⟩
        have hm1 : (coerceFrom n rest).length ≤ m1 := by simp at hm; omega
        rw [quoteBody.eq_3, if_pos hb, ih rest hlr m1 hm1]
      · rw [if_neg hb] at hm ⊢
        rw [if_neg hb]
        dsimp only at hm ⊢
        by_cases hd : (decodeRune (b :: rest)).2 = 1
        · have hr := decodeRune_narrow b rest hb hd
          rw [if_pos hd] at hm ⊢
          rw [if_pos ⟨hr, hd⟩]
          obtain ⟨m1, rfl⟩ : ∃ m1, m = m1 + 1 := ⟨m - 1, by simp at hm; omega⟩
          have hm1 : (coerceFrom n rest).length ≤ m1 := by simp at hm; omega
          simp only [List.cons_append, List.nil_append]
          rw [quoteBody.eq_3, if_neg (by decide)]
          dsimp only
          rw [decodeRune_fffd, if_neg (by decide), if_neg (by decide)]
          simp only [List.take_succ_cons, List.take_zero, List.drop_succ_cons, List.drop_zero,
            List.cons_append, List.nil_append]
          rw [ih rest hlr m1 hm1]
        · rw [if_neg hd] at hm ⊢
          rw [if_neg (fun h => hd h.2)]
          obtain ⟨h1, h2, h3, h4, h5⟩ := decodeRune_wide b rest hd
          have hdl := drop_length_le b rest n hl
          have hw := decodeRune_width_pos b rest
          obtain ⟨k, hk⟩ : ∃ k, (decodeRune (b :: rest)).2 = k + 1 :=
            ⟨_, (Nat.sub_add_cancel hw).symm⟩
          have hd5 := h5 (coerceFrom n ((b :: rest).drop (decodeRune (b :: rest)).2))
          rw [hk] at hm hd5 h3 hdl ⊢
          simp only [List.take_succ_cons, List.cons_append, List.length_cons,
            List.length_append] at hm hd5 h3 ⊢
          have hl3 : (List.take k rest).length = k := by omega
          obtain ⟨m1, rfl⟩ : ∃ m1, m = m1 + 1 := ⟨m - 1, by omega⟩
          have hm1 : (coerceFrom n (List.drop (k + 1) (b :: rest))).length ≤ m1 := by omega
          rw [quoteBody.eq_3, if_neg hb]
          dsimp only
          rw [hd5, if_neg (fun h => hd h.2), hk]
          have hdrop : List.drop (k + 1) (b :: (List.take k rest ++
              coerceFrom n (List.drop (k + 1) (b :: rest))))
              = coerceFrom n (List.drop (k + 1) (b :: rest)) := by
            rw [List.drop_succ_cons, List.drop_append_eq_append_drop, hl3]
            simp
          have htake : List.take (k + 1) (b :: (List.take k rest ++
              coerceFrom n (List.drop (k + 1) (b :: rest))))
              = b :: List.take k rest := by
            rw [List.take_succ_cons, List.take_append_eq_append_take, hl3]
            simp
          rw [hdrop, htake, ih _ hdl m1 hm1]
          all_goals rfl

theorem quote_toValidUTF8 (s : Bytes) : quote (toValidUTF8 s) = quote s := by
  unfold quote toValidUTF8
  rw [quoteBody_coerceFrom s.length s (le_refl _) _ (le_refl _)]

/-- The compact encoding of a token does not change when the invalid UTF-8
bytes of its fields are replaced by U+FFFD. -/
theorem marshal_coerceToken (t : Token) : marshal (coerceToken t) = marshal t := by
  unfold marshal coerceToken
  simp only [quote_toValidUTF8]

theorem hexDigit_lt (n : Nat) : (hexDigit n).val < 0x80 := by
  unfold hexDigit
  split_ifs <;> simp only [byte] <;> omega

theorem validUTF8_hexEncode (s : Bytes) : validUTF8 (hexEncode s) = true := by
  apply validFrom_ascii _ _ _ (le_refl _)
  induction s with
  | nil => intro c hc; cases hc
  | cons b rest ih =>
    intro c hc
    simp only [hexEncode, List.mem_cons] at hc
    rcases hc with rfl | rfl | hc
    · exact hexDigit_lt _
    · exact hexDigit_lt _
    · exact ih c hc

theorem computeProgramHash_valid (L : Lib) (w : World) (h : Bytes)
    (hc : computeProgramHash L w = .ok h) : validUTF8 h = true := by
  unfold computeProgramHash at hc
  cases he : w.executable with
  | none => rw [he] at hc; cases hc
  | some exe =>
    rw [he] at hc
    dsimp only at hc
    cases hf : w.fs exe with
    | none => rw [hf] at hc; cases hc
    | some f =>
      rw [hf] at hc
      cases hc
      exact validUTF8_hexEncode _

/-! ### The verification sequence -/

theorem verifySignature_ne_none (L : Lib) (pk : RSAPublicKey) (payload s : Bytes)
    (h : b64Decode s = none ∨
      ∃ sig, b64Decode s = some sig ∧ L.verifyPSS pk (L.sha256 payload) sig = false) :
    ∃ e, verifySignature L pk payload s = some e := by
  unfold verifySignature
  rcases h with h | ⟨sig, h1, h2⟩
  · exact ⟨.corruptInput, by simp [h]⟩
  · exact ⟨.verification, by simp [h1, h2]⟩

/-- C1. Signature first: when the token file parses and the signature field
is not valid base64 or does not verify against the rebuilt payload,
`verifyTokenFile` returns the error "signature verify failed" and leaves the
machine as it was. Nothing is assumed about the expiry string, the clock,
the executable or the machine id. -/
theorem signature_checked_first (L : Lib) (o : WriteOutcome) (w : World) (tokenPath : String)
    (b : Bytes) (t : Token) (pk : RSAPublicKey)
    (hread : w.fs tokenPath = some b) (hjson : unmarshal b = .ok t)
    (hpk : parsePublicKey L pubKeyPEM = .ok pk)
    (hsig : b64Decode t.signature = none ∨
      ∃ sig, b64Decode t.signature = some sig ∧
        L.verifyPSS pk (L.sha256 (verifierPayload t)) sig = false) :
    ∃ e, verifyTokenFile L o w tokenPath = (some (.signatureVerifyFailed e), w) ∧
      (Err.signatureVerifyFailed e).kind = .signatureInvalid := by
  obtain ⟨e, he⟩ := verifySignature_ne_none L pk (verifierPayload t) t.signature hsig
  refine ⟨e, ?_, rfl⟩
  simp [verifyTokenFile, readFile, hread, hjson, hpk, he]

theorem signature_checked_first_witness :
    bareWorld.fs "token.json" = some forgedFile ∧
    unmarshal forgedFile = .ok ⟨ascii "AA:BB:CC", ascii "00", ascii "never", [], ascii "AAAA"⟩ ∧
    testLib.parseRFC3339 (ascii "never") = none ∧
    computeProgramHash testLib bareWorld = .error .executable ∧
    getMachineID testLib bareWorld = .error .noMachineID ∧
    ∃ e, verifyTokenFile testLib .ok bareWorld "token.json"
        = (some (.signatureVerifyFailed e), bareWorld) ∧
      (Err.signatureVerifyFailed e).kind = .signatureInvalid :=
  ⟨by rfl, by rfl, by rfl, by rfl, by rfl,
    signature_checked_first testLib .ok bareWorld "token.json" forgedFile
      ⟨ascii "AA:BB:CC", ascii "00", ascii "never", [], ascii "AAAA"⟩ testKey.pub
      (by rfl) (by rfl) (by rfl) (Or.inr ⟨[0, 0, 0], by rfl, by rfl⟩)⟩

/-- The result of `verifyTokenFile` once the token is read and parsed, the
key is parsed, the signature verifies and the expiry parses: the remaining
checks in source order. -/
theorem verifyTokenFile_after_signature (L : Lib) (o : WriteOutcome) (w : World)
    (tokenPath : String) (b : Bytes) (t : Token) (pk : RSAPublicKey) (exp : Int)
    (hread : w.fs tokenPath = some b) (hjson : unmarshal b = .ok t)
    (hpk : parsePublicKey L pubKeyPEM = .ok pk)
    (hsig : verifySignature L pk (verifierPayload t) t.signature = none)
    (hexp : L.parseRFC3339 t.expiry = some exp) :
    verifyTokenFile L o w tokenPath =
      if exp < w.now then (some (.tokenExpired exp), w)
      else
        match computeProgramHash L w with
        | .error e => (some e, w)
        | .ok localHash =>
          if localHash ≠ t.programHash then
            (some (.programHashMismatch t.programHash localHash), w)
          else
            match getMachineID L w with
            | .error e => (some e, w)
            | .ok localMID =>
              if localMID ≠ t.machineID then
                (some (.machineIDMismatch t.machineID localMID), w)
              else
                match persistActivation o w tokenPath with
                | (some e, w1) => (some (.persistActivation e), w1)
                | (none, w1) => (none, w1) := by
  simp only [verifyTokenFile, readFile, hread, hjson, hpk, hsig, hexp]

theorem computeProgramHash_kind (L : Lib) (w : World) (e : Err)
    (h : computeProgramHash L w = .error e) : e = .executable := by
  unfold computeProgramHash at h
  split at h
  · cases h; rfl
  · split at h
    · cases h; rfl
    · cases h

theorem getMachineID_kind (L : Lib) (w : World) (e : Err)
    (h : getMachineID L w = .error e) : e = .noMachineID := by
  unfold getMachineID at h
  split at h
  · cases h
  · split at h
    · cases h
    · split at h
      · cases h
      · unfold macFallback at h
        split at h
        · split at h
          · cases h
          · cases h; rfl
        · cases h; rfl

/-- C2, as stated, fails: with the clock exactly at the expiry instant, at
which the specification counts the token as expired, a correctly signed
token whose program hash and machine id both differ from the local ones is
rejected with the error "program hash mismatch", of kind
FingerprintMismatch, not Expired. -/
theorem fingerprint_reported_at_expiry_instant :
    instantWorld.fs "token.json"
      = some (issuedFile (ascii "AA:BB:CC") (ascii "2000-01-01T00:00:00Z")) ∧
    unmarshal (issuedFile (ascii "AA:BB:CC") (ascii "2000-01-01T00:00:00Z"))
      = .ok (issuedToken (ascii "AA:BB:CC") (ascii "2000-01-01T00:00:00Z")) ∧
    verifySignature testLib testKey.pub
      (verifierPayload (issuedToken (ascii "AA:BB:CC") (ascii "2000-01-01T00:00:00Z")))
      (issuedToken (ascii "AA:BB:CC") (ascii "2000-01-01T00:00:00Z")).signature = none ∧
    testLib.parseRFC3339 (issuedToken (ascii "AA:BB:CC") (ascii "2000-01-01T00:00:00Z")).expiry
      = some instantWorld.now ∧
    computeProgramHash testLib instantWorld = .ok (hexEncode (ascii "another binary")) ∧
    hexEncode (ascii "another binary") ≠
      (issuedToken (ascii "AA:BB:CC") (ascii "2000-01-01T00:00:00Z")).programHash ∧
    getMachineID testLib instantWorld = .ok (ascii "DD:EE:FF") ∧
    ascii "DD:EE:FF" ≠ (issuedToken (ascii "AA:BB:CC") (ascii "2000-01-01T00:00:00Z")).machineID ∧
    verifyTokenFile testLib .ok instantWorld "token.json"
      = (some (.programHashMismatch (hexEncode (ascii "binary"))
          (hexEncode (ascii "another binary"))), instantWorld) ∧
    (Err.programHashMismatch (hexEncode (ascii "binary"))
      (hexEncode (ascii "another binary"))).kind ≠ .expired :=
  ⟨by rfl, by rfl, by rfl, by rfl, by rfl, by decide, by rfl, by decide, by rfl, by decide⟩

/-- C2, amended. Order of the checks after the signature, where expired means
that the clock is strictly after the expiry instant. For a token that is
read, parsed and whose signature verifies, with a parsable expiry: (1) if
the clock is after the expiry the result is the error "token expired",
whatever the local fingerprint and machine id are; (2) otherwise, if the
local fingerprint is computed and differs from `program_hash`, the result is
the error "program hash mismatch", whatever the machine id is; (3)
otherwise, if the local fingerprint equals `program_hash` and the local
machine id is found and differs from `machine_id`, the result is the error
"machine id mismatch"; (4) an error of kind Expired is returned only when
the clock is after the expiry, one of kind FingerprintMismatch only when the
clock is not after the expiry and the local fingerprint differs, one of
kind MachineMismatch only when the clock is not after the expiry, the local
fingerprint equals `program_hash` and the local machine id differs; (5) the
call reaches `persistActivation` only when all three checks pass. -/
theorem checks_in_fixed_order (L : Lib) (o : WriteOutcome) (w : World)
    (tokenPath : String) (b : Bytes) (t : Token) (pk : RSAPublicKey) (exp : Int)
    (hread : w.fs tokenPath = some b) (hjson : unmarshal b = .ok t)
    (hpk : parsePublicKey L pubKeyPEM = .ok pk)
    (hsig : verifySignature L pk (verifierPayload t) t.signature = none)
    (hexp : L.parseRFC3339 t.expiry = some exp) :
    (exp < w.now → verifyTokenFile L o w tokenPath = (some (.tokenExpired exp), w)) ∧
    (¬ exp < w.now → ∀ localHash, computeProgramHash L w = .ok localHash →
      localHash ≠ t.programHash →
      verifyTokenFile L o w tokenPath =
        (some (.programHashMismatch t.programHash localHash), w)) ∧
    (¬ exp < w.now → computeProgramHash L w = .ok t.programHash →
      ∀ localMID, getMachineID L w = .ok localMID → localMID ≠ t.machineID →
      verifyTokenFile L o w tokenPath =
        (some (.machineIDMismatch t.machineID localMID), w)) ∧
    (∀ e, (verifyTokenFile L o w tokenPath).1 = some e →
      (e.kind = .expired → exp < w.now) ∧
      (e.kind = .fingerprintMismatch → ¬ exp < w.now ∧
        ∃ localHash, computeProgramHash L w = .ok localHash ∧ localHash ≠ t.programHash) ∧
      (e.kind = .machineMismatch → ¬ exp < w.now ∧
        computeProgramHash L w = .ok t.programHash ∧
        ∃ localMID, getMachineID L w = .ok localMID ∧ localMID ≠ t.machineID)) ∧
    (((verifyTokenFile L o w tokenPath).1 = none ∨
        ∃ e, (verifyTokenFile L o w tokenPath).1 = some (.persistActivation e)) →
      ¬ exp < w.now ∧ computeProgramHash L w = .ok t.programHash ∧
        getMachineID L w = .ok t.machineID) := by
  rw [verifyTokenFile_after_signature L o w tokenPath b t pk exp hread hjson hpk hsig hexp]
  refine ⟨fun h => by simp [h], fun h localHash hh hne => by simp [h, hh, hne],
    fun h hh localMID hm hne => by simp [h, hh, hm, hne], ?_, ?_⟩
  · intro e he
    by_cases hlt : exp < w.now
    · simp [hlt] at he; subst he; simp [Err.kind, hlt]
    · simp only [hlt, if_false] at he
      cases hc : computeProgramHash L w with
      | error e1 =>
        have := computeProgramHash_kind L w e1 hc
        subst this
        simp [hc] at he; subst he; simp [Err.kind]
      | ok localHash =>
        by_cases hne : localHash = t.programHash
        · cases hm : getMachineID L w with
          | error e1 =>
            have := getMachineID_kind L w e1 hm
            subst this
            simp [hc, hne, hm] at he; subst he; simp [Err.kind]
          | ok localMID =>
            by_cases hmid : localMID = t.machineID
            · simp only [hc, hne, hm, hmid, ne_eq, not_true_eq_false, if_false] at he
              split at he
              · simp at he; subst he; simp [Err.kind]
              · simp at he
            · simp [hc, hne, hm, hmid] at he; subst he; simp [Err.kind, hlt, hne, hmid]
        · simp [hc, hne] at he; subst he; simp [Err.kind, hlt, hne]
  · intro he
    by_cases hlt : exp < w.now
    · simp [hlt] at he
    · simp only [hlt, if_false] at he
      cases hc : computeProgramHash L w with
      | error e1 =>
        have := computeProgramHash_kind L w e1 hc
        subst this
        simp [hc] at he
      | ok localHash =>
        by_cases hne : localHash = t.programHash
        · cases hm : getMachineID L w with
          | error e1 =>
            have := getMachineID_kind L w e1 hm
            subst this
            simp [hc, hne, hm] at he
          | ok localMID =>
            by_cases hmid : localMID = t.machineID
            · simp [hlt, hne, hmid]
            · simp [hc, hne, hm, hmid] at he
        · simp [hc, hne] at he

theorem checks_in_fixed_order_witness :
    (staleWorld.fs "token.json"
        = some (issuedFile (ascii "AA:BB:CC") (ascii "2000-01-01T00:00:00Z")) ∧
      computeProgramHash testLib staleWorld = .ok (hexEncode (ascii "another binary")) ∧
      hexEncode (ascii "another binary") ≠
        (issuedToken (ascii "AA:BB:CC") (ascii "2000-01-01T00:00:00Z")).programHash ∧
      getMachineID testLib staleWorld = .ok (ascii "DD:EE:FF") ∧
      ascii "DD:EE:FF" ≠
        (issuedToken (ascii "AA:BB:CC") (ascii "2000-01-01T00:00:00Z")).machineID ∧
      verifyTokenFile testLib .ok staleWorld "token.json"
        = (some (.tokenExpired t2000), staleWorld)) ∧
    (getMachineID testLib otherProgramWorld = .ok (ascii "DD:EE:FF") ∧
      ascii "DD:EE:FF" ≠ (issuedToken (ascii "AA:BB:CC") expiry2099).machineID ∧
      verifyTokenFile testLib .ok otherProgramWorld "token.json"
        = (some (.programHashMismatch (issuedToken (ascii "AA:BB:CC") expiry2099).programHash
            (hexEncode (ascii "another binary"))), otherProgramWorld)) ∧
    verifyTokenFile testLib .ok otherMachineWorld "token.json"
      = (some (.machineIDMismatch (issuedToken (ascii "AA:BB:CC") expiry2099).machineID
          (ascii "DD:EE:FF")), otherMachineWorld) :=
  ⟨⟨by rfl, by rfl, by decide, by rfl, by decide,
      (checks_in_fixed_order testLib .ok staleWorld "token.json"
        (issuedFile (ascii "AA:BB:CC") (ascii "2000-01-01T00:00:00Z"))
        (issuedToken (ascii "AA:BB:CC") (ascii "2000-01-01T00:00:00Z")) testKey.pub t2000
        (by rfl) (by rfl) (by rfl) (by rfl) (by rfl)).1 (by decide)⟩,
    ⟨by rfl, by decide,
      (checks_in_fixed_order testLib .ok otherProgramWorld "token.json"
        (issuedFile (ascii "AA:BB:CC") expiry2099)
        (issuedToken (ascii "AA:BB:CC") expiry2099) testKey.pub t2099
        (by rfl) (by rfl) (by rfl) (by rfl) (by rfl)).2.1 (by decide)
        (hexEncode (ascii "another binary")) (by rfl) (by decide)⟩,
    (checks_in_fixed_order testLib .ok otherMachineWorld "token.json"
      (issuedFile (ascii "AA:BB:CC") expiry2099)
      (issuedToken (ascii "AA:BB:CC") expiry2099) testKey.pub t2099
      (by rfl) (by rfl) (by rfl) (by rfl) (by rfl)).2.2.1 (by decide) (by rfl)
      (ascii "DD:EE:FF") (by rfl) (by decide)⟩

/-- C5, as stated, fails: with the clock exactly at the expiry instant a
correctly signed token for this machine and program is accepted. -/
theorem accepted_at_expiry_instant :
    testLib.parseRFC3339 (issuedToken (ascii "AA:BB:CC") (ascii "2099-01-01T00:00:00Z")).expiry
      = some boundaryWorld.now ∧
    (verifyTokenFile testLib .ok boundaryWorld "token.json").1 = none := by
  constructor
  · rfl
  · rfl

/-- C5, amended. For a token that is read, parsed and whose signature
verifies, with a parsable expiry: the result is the error "token expired"
exactly when the clock is strictly after the expiry instant; when the clock
is at or before it, no error of kind Expired is returned. -/
theorem expired_iff_strictly_after (L : Lib) (o : WriteOutcome) (w : World)
    (tokenPath : String) (b : Bytes) (t : Token) (pk : RSAPublicKey) (exp : Int)
    (hread : w.fs tokenPath = some b) (hjson : unmarshal b = .ok t)
    (hpk : parsePublicKey L pubKeyPEM = .ok pk)
    (hsig : verifySignature L pk (verifierPayload t) t.signature = none)
    (hexp : L.parseRFC3339 t.expiry = some exp) :
    (exp < w.now → verifyTokenFile L o w tokenPath = (some (.tokenExpired exp), w)) ∧
    (w.now ≤ exp → ∀ e, (verifyTokenFile L o w tokenPath).1 = some e → e.kind ≠ .expired) := by
  rw [verifyTokenFile_after_signature L o w tokenPath b t pk exp hread hjson hpk hsig hexp]
  refine ⟨fun h => by simp [h], ?_⟩
  intro hle e he
  have hlt : ¬ exp < w.now := not_lt.mpr hle
  simp only [hlt, if_false] at he
  cases hc : computeProgramHash L w with
  | error e1 =>
    have := computeProgramHash_kind L w e1 hc
    subst this
    simp [hc] at he; subst he; simp [Err.kind]
  | ok localHash =>
    by_cases hne : localHash = t.programHash
    · cases hm : getMachineID L w with
      | error e1 =>
        have := getMachineID_kind L w e1 hm
        subst this
        simp [hc, hne, hm] at he; subst he; simp [Err.kind]
      | ok localMID =>
        by_cases hmid : localMID = t.machineID
        · simp only [hc, hne, hm, hmid, ne_eq, not_true_eq_false, if_false] at he
          split at he
          · simp at he; subst he; simp [Err.kind]
          · simp at he
        · simp [hc, hne, hm, hmid] at he; subst he; simp [Err.kind]
    · simp [hc, hne] at he; subst he; simp [Err.kind]

theorem expired_iff_strictly_after_witness :
    lateWorld.fs "token.json" = some (issuedFile (ascii "AA:BB:CC") (ascii "2099-01-01T00:00:00Z")) ∧
    t2099 < lateWorld.now ∧
    verifyTokenFile testLib .ok lateWorld "token.json" = (some (.tokenExpired t2099), lateWorld) :=
  ⟨by rfl, by decide,
    (expired_iff_strictly_after testLib .ok lateWorld "token.json"
      (issuedFile (ascii "AA:BB:CC") (ascii "2099-01-01T00:00:00Z"))
      (issuedToken (ascii "AA:BB:CC") (ascii "2099-01-01T00:00:00Z")) testKey.pub t2099
      (by rfl) (by rfl) (by rfl) (by rfl) (by rfl)).1 (by decide)⟩

/-! ### Sign, then verify -/

theorem testLib_signPSS_verifyPSS (r : Bytes) (k : RSAPrivateKey) (d sig : Bytes)
    (h : testLib.signPSS r k d = some sig) : testLib.verifyPSS k.pub d sig = true := by
  simp only [testLib] at h ⊢
  by_cases hk : k = testKey
  · rw [if_pos hk] at h
    simp only [Option.some.injEq] at h
    simp [hk, h]
  · rw [if_neg hk] at h; cases h

theorem testLib_exact (r : Bytes) (k : RSAPrivateKey) (p p1 sig : Bytes)
    (h : testLib.signPSS r k (testLib.sha256 p) = some sig)
    (hv : testLib.verifyPSS k.pub (testLib.sha256 p1) sig = true) : p1 = p := by
  simp only [testLib] at h hv
  by_cases hk : k = testKey
  · rw [if_pos hk] at h
    simp only [Option.some.injEq] at h
    simp only [Bool.and_eq_true, decide_eq_true_eq] at hv
    rw [← h] at hv
    exact (List.reverse_injective hv.2).symm
  · rw [if_neg hk] at h; cases h

/-- C3, as stated, fails: the signer issues a token for the machine id that is
the single byte 0xFF, and on the machine with exactly that machine id,
running the program the token was issued for, long before the expiry, with
the matching key and a signature scheme whose verification accepts every
signature it produces, `verifyTokenFile` rejects the token the signer wrote.
The signer writes U+FFFD in place of the byte, in the payload and in the
file alike, so the signature verifies, but the machine id the verifier
parses is U+FFFD and differs from the local one: the error is "machine id
mismatch" and no activation record is written. -/
theorem invalid_utf8_round_trip_fails :
    (signerMain testLib [] .ok issuerFS (issueArgs [0xFF] expiry2099)).1 = 0 ∧
    rawIDWorld.fs "token.json"
      = (signerMain testLib [] .ok issuerFS (issueArgs [0xFF] expiry2099)).2 "token.json" ∧
    loadPrivateKey testLib issuerFS "private.pem" = some testKey ∧
    parsePublicKey testLib pubKeyPEM = .ok testKey.pub ∧
    (∀ r k d sig, testLib.signPSS r k d = some sig → testLib.verifyPSS k.pub d sig = true) ∧
    testLib.parseRFC3339 expiry2099 = some t2099 ∧ rawIDWorld.now < t2099 ∧
    computeProgramHash testLib rawIDWorld = .ok (issueArgs [0xFF] expiry2099).programHash ∧
    getMachineID testLib rawIDWorld = .ok [0xFF] ∧
    (issuedToken [0xFF] expiry2099).machineID = [0xEF, 0xBF, 0xBD] ∧
    verifyTokenFile testLib .ok rawIDWorld "token.json"
      = (some (.machineIDMismatch [0xEF, 0xBF, 0xBD] [0xFF]), rawIDWorld) ∧
    isActivated (verifyTokenFile testLib .ok rawIDWorld "token.json").2 = false :=
  ⟨by rfl, by rfl, by rfl, by rfl, testLib_signPSS_verifyPSS, by rfl, by decide, by rfl, by rfl,
    by rfl, by rfl, by rfl⟩

/-- What a signer run that ends with exit status 0 did: the required flags
were not empty, the key was loaded, the payload was signed and the indented
token was written to the output path. -/
theorem signerMain_success (L : Lib) (rand : Bytes) (fs : FS) (a : SignerArgs)
    (h : (signerMain L rand .ok fs a).1 = 0) :
    ∃ priv sig, loadPrivateKey L fs a.priv = some priv ∧
      L.signPSS rand priv (L.sha256 (signerPayload a)) = some sig ∧
      (signerMain L rand .ok fs a).2 a.out
        = some (marshalIndent (withSignature (signerToken a) (b64Encode sig))) := by
  unfold signerMain at h ⊢
  by_cases he : a.machineID = [] ∨ a.programHash = [] ∨ a.expiry = []
  · rw [if_pos he] at h; cases h
  rw [if_neg he] at h ⊢
  cases hk : loadPrivateKey L fs a.priv with
  | none => simp only [hk] at h; cases h
  | some priv =>
    simp only [hk] at h ⊢
    unfold signToekn at h ⊢
    dsimp only at h ⊢
    cases hs : L.signPSS rand priv (L.sha256 (signerPayload a)) with
    | none => simp only [hs] at h; cases h
    | some sig =>
      refine ⟨priv, sig, rfl, hs, ?_⟩
      simp [hs, writeFile]

theorem verifySignature_signed (L : Lib) (rand : Bytes) (priv : RSAPrivateKey)
    (payload sig : Bytes)
    (hpss : ∀ r k d s, L.signPSS r k d = some s → L.verifyPSS k.pub d s = true)
    (hs : L.signPSS rand priv (L.sha256 payload) = some sig) :
    verifySignature L priv.pub payload (b64Encode sig) = none := by
  unfold verifySignature
  rw [b64Decode_b64Encode]
  dsimp only
  rw [hpss rand priv _ sig hs, if_pos rfl]

/-- The payload the verifier rebuilds from the token it parses out of the
signer's file is the payload the signer signed, for all field values. -/
theorem verifierPayload_coerceToken (a : SignerArgs) (sig : Bytes) :
    verifierPayload (coerceToken (withSignature (signerToken a) sig)) = signerPayload a := by
  have h : copyToken (coerceToken (withSignature (signerToken a) sig))
      = coerceToken (signerToken a) := rfl
  unfold verifierPayload signerPayload
  rw [h, marshal_coerceToken]

/-- C3, amended. Round trip of sign then verify when the machine id is valid
UTF-8; the program hash and the extra string are arbitrary. When a signer
run ends with exit status 0 for flags whose machine id is valid UTF-8, the
embedded public key is the public half of the signing key, PSS verification
accepts what PSS signing produces, `time.Parse` accepts only valid UTF-8
(an RFC3339 string is ASCII), the verifier reads the file the signer wrote,
the expiry parses to an instant later than the clock, the fingerprint
provider returns the program hash and the identity provider the machine id,
and the activation file can be written, then `verifyTokenFile` returns nil
and the activation file holds the token file. -/
theorem sign_then_verify (L : Lib) (rand : Bytes) (fs : FS) (a : SignerArgs)
    (w : World) (tokenPath : String) (exp : Int)
    (hpss : ∀ r k d s, L.signPSS r k d = some s → L.verifyPSS k.pub d s = true)
    (htime : ∀ s e, L.parseRFC3339 s = some e → validUTF8 s = true)
    (hrun : (signerMain L rand .ok fs a).1 = 0)
    (hpub : ∀ priv, loadPrivateKey L fs a.priv = some priv →
      parsePublicKey L pubKeyPEM = .ok priv.pub)
    (hfile : w.fs tokenPath = (signerMain L rand .ok fs a).2 a.out)
    (hutf : validUTF8 a.machineID = true)
    (hexp : L.parseRFC3339 a.expiry = some exp) (hnow : w.now < exp)
    (hfp : computeProgramHash L w = .ok a.programHash)
    (hmid : getMachineID L w = .ok a.machineID) :
    ∃ file, w.fs tokenPath = some file ∧
      verifyTokenFile L .ok w tokenPath
        = (none, { w with fs := Function.update w.fs w.activationFile (some file) }) ∧
      isActivated (verifyTokenFile L .ok w tokenPath).2 = true ∧
      (verifyTokenFile L .ok w tokenPath).2.fs w.activationFile = some file := by
  obtain ⟨priv, sig, hk, hs, hout⟩ := signerMain_success L rand fs a hrun
  rw [hout] at hfile
  have hjson := unmarshal_marshalIndent_coerce (withSignature (signerToken a) (b64Encode sig))
  have hs1 : (coerceToken (withSignature (signerToken a) (b64Encode sig))).signature
      = b64Encode sig := toValidUTF8_valid _ (validUTF8_b64Encode sig)
  have he1 : (coerceToken (withSignature (signerToken a) (b64Encode sig))).expiry
      = a.expiry := toValidUTF8_valid _ (htime a.expiry exp hexp)
  have hh1 : (coerceToken (withSignature (signerToken a) (b64Encode sig))).programHash
      = a.programHash := toValidUTF8_valid _ (computeProgramHash_valid L w _ hfp)
  have hm1 : (coerceToken (withSignature (signerToken a) (b64Encode sig))).machineID
      = a.machineID := toValidUTF8_valid _ hutf
  have hsig : verifySignature L priv.pub
      (verifierPayload (coerceToken (withSignature (signerToken a) (b64Encode sig))))
      (coerceToken (withSignature (signerToken a) (b64Encode sig))).signature = none := by
    rw [hs1, verifierPayload_coerceToken]
    exact verifySignature_signed L rand priv _ sig hpss hs
  have hres := verifyTokenFile_after_signature L .ok w tokenPath _ _ priv.pub exp hfile hjson
    (hpub priv hk) hsig (by rw [he1]; exact hexp)
  have hlt : ¬ exp < w.now := not_lt.mpr (le_of_lt hnow)
  have hpersist : persistActivation .ok w tokenPath
      = (none, { w with fs := (Function.update w.fs w.activationFile
          (some (marshalIndent (withSignature (signerToken a) (b64Encode sig))))) }) := by
    simp [persistActivation, readFile, hfile, writeFile]
  rw [if_neg hlt, hfp] at hres
  dsimp only at hres
  rw [if_neg (by rw [hh1]; exact fun h => h rfl), hmid] at hres
  dsimp only at hres
  rw [if_neg (by rw [hm1]; exact fun h => h rfl), hpersist] at hres
  dsimp only at hres
  refine ⟨_, hfile, hres, ?_, ?_⟩
  · rw [hres]; simp [isActivated]
  · rw [hres]; simp

theorem testLib_parseRFC3339_valid (s : Bytes) (e : Int)
    (h : testLib.parseRFC3339 s = some e) : validUTF8 s = true := by
  simp only [testLib] at h
  by_cases h1 : s = ascii "2099-01-01T00:00:00Z"
  · rw [h1]; rfl
  · rw [if_neg h1] at h
    by_cases h2 : s = ascii "2000-01-01T00:00:00Z"
    · rw [h2]; rfl
    · rw [if_neg h2] at h; cases h

theorem sign_then_verify_witness :
    (signerMain testLib [] .ok issuerFS rawExtraArgs).1 = 0 ∧
    validUTF8 rawExtraArgs.machineID = true ∧ validUTF8 rawExtraArgs.extra = false ∧
    rawExtraWorld.fs "token.json"
      = (signerMain testLib [] .ok issuerFS rawExtraArgs).2 "token.json" ∧
    testLib.parseRFC3339 expiry2099 = some t2099 ∧ rawExtraWorld.now < t2099 ∧
    computeProgramHash testLib rawExtraWorld = .ok rawExtraArgs.programHash ∧
    getMachineID testLib rawExtraWorld = .ok rawExtraArgs.machineID ∧
    ∃ file, rawExtraWorld.fs "token.json" = some file ∧
      verifyTokenFile testLib .ok rawExtraWorld "token.json"
        = (none, { rawExtraWorld with
            fs := (Function.update rawExtraWorld.fs rawExtraWorld.activationFile (some file)) }) ∧
      isActivated (verifyTokenFile testLib .ok rawExtraWorld "token.json").2 = true ∧
      (verifyTokenFile testLib .ok rawExtraWorld "token.json").2.fs rawExtraWorld.activationFile
        = some file :=
  ⟨by rfl, by rfl, by rfl, by rfl, by rfl, by decide, by rfl, by rfl,
    sign_then_verify testLib [] issuerFS rawExtraArgs rawExtraWorld
      "token.json" t2099 testLib_signPSS_verifyPSS testLib_parseRFC3339_valid (by rfl)
      (by
        intro priv h
        have h2 : loadPrivateKey testLib issuerFS rawExtraArgs.priv = some testKey := rfl
        rw [h2] at h
        cases h
        rfl)
      (by rfl) (by rfl) (by rfl) (by decide) (by rfl) (by rfl)⟩

/-! ### Tampering -/

/-- C4, as stated, fails. In the token issued for machine id `AA:BB:CC` the
value of machine_id is the eight bytes from index 19; flipping one bit of
the colon at index 21 gives the control byte 0x1A and a file that is not
JSON, and `verifyTokenFile` returns the JSON syntax error, of kind
MalformedToken. In the token issued for machine id `A<B` the value is
written with an escape for `<`; flipping one bit of the hex digit `c` of
that escape, at index 25, gives `C` and a file that decodes to the same
token, and `verifyTokenFile` accepts it. -/
theorem tampering_not_always_signature_error :
    ((issuedFile (ascii "AA:BB:CC") expiry2099).drop 19).take 8 = ascii "AA:BB:CC" ∧
    verifyTokenFile testLib .ok bitFlipWorld "token.json"
      = (some (.json .syntaxError), bitFlipWorld) ∧
    (Err.json .syntaxError).kind = .malformedToken ∧
    ((issuedFile (ascii "A<B") expiry2099).drop 19).take 8
      = [0x41, 0x5C, 0x75, 0x30, 0x30, 0x33, 0x63, 0x42] ∧
    (issuedFile (ascii "A<B") expiry2099).set 25 0x43 ≠ issuedFile (ascii "A<B") expiry2099 ∧
    (verifyTokenFile testLib .ok caseFlipWorld "token.json").1 = none :=
  ⟨by rfl, by rfl, by rfl, by rfl, by decide, by rfl⟩

theorem copyToken_valid (t : Token) (h : t.valid) : (copyToken t).valid :=
  ⟨h.1, h.2.1, h.2.2.1, h.2.2.2.1, rfl⟩

/-- C4, amended. Tampering with a signed token. Let a token be signed for
valid UTF-8 field values, and let the verifier read any file. If the file
does not parse, `verifyTokenFile` returns the JSON error. If it parses to a
token that carries the issued signature and whose machine id, program hash,
expiry or extra differs from the issued value, then, when the signature
scheme accepts a signature only for the exact payload it was produced over,
`verifyTokenFile` returns the error "signature verify failed" and leaves the
machine unchanged. -/
theorem tampered_fields_rejected (L : Lib) (o : WriteOutcome) (rand : Bytes)
    (a : SignerArgs) (priv : RSAPrivateKey) (sigB64 : Bytes) (w : World) (tokenPath : String)
    (file : Bytes)
    (hexact : ∀ r k p p1 s, L.signPSS r k (L.sha256 p) = some s →
      L.verifyPSS k.pub (L.sha256 p1) s = true → p1 = p)
    (hpub : parsePublicKey L pubKeyPEM = .ok priv.pub)
    (hsigned : signToekn L rand priv (signerPayload a) = some sigB64)
    (hutf : validUTF8 a.machineID = true ∧ validUTF8 a.programHash = true ∧
      validUTF8 a.expiry = true ∧ validUTF8 a.extra = true)
    (hread : w.fs tokenPath = some file) :
    (∀ e, unmarshal file = .error e →
      verifyTokenFile L o w tokenPath = (some (.json e), w) ∧
      (Err.json e).kind = .malformedToken) ∧
    (∀ t, unmarshal file = .ok t → t.signature = sigB64 →
      (t.machineID ≠ a.machineID ∨ t.programHash ≠ a.programHash ∨ t.expiry ≠ a.expiry ∨
        t.extra ≠ a.extra) →
      verifyTokenFile L o w tokenPath = (some (.signatureVerifyFailed .verification), w) ∧
      (Err.signatureVerifyFailed .verification).kind = .signatureInvalid) := by
  constructor
  · intro e he
    refine ⟨?_, rfl⟩
    simp only [verifyTokenFile, readFile, hread, he]
  · intro t ht hsig hdiff
    refine ⟨?_, rfl⟩
    unfold signToekn at hsigned
    dsimp only at hsigned
    cases hs : L.signPSS rand priv (L.sha256 (signerPayload a)) with
    | none => rw [hs] at hsigned; cases hsigned
    | some sig =>
      rw [hs] at hsigned
      simp only [Option.some.injEq] at hsigned
      have hne : verifierPayload t ≠ signerPayload a := by
        intro heq
        have hinj := marshal_injective (copyToken t) (signerToken a)
          (copyToken_valid t (valid_unmarshal file t ht))
          ⟨hutf.1, hutf.2.1, hutf.2.2.1, hutf.2.2.2, rfl⟩ heq
        simp only [copyToken, signerToken, Token.mk.injEq, and_true] at hinj
        rcases hdiff with h | h | h | h
        · exact h hinj.1
        · exact h hinj.2.1
        · exact h hinj.2.2.1
        · exact h hinj.2.2.2
      have hv : L.verifyPSS priv.pub (L.sha256 (verifierPayload t)) sig = false := by
        cases hc : L.verifyPSS priv.pub (L.sha256 (verifierPayload t)) sig with
        | false => rfl
        | true => exact absurd (hexact rand priv _ _ sig hs hc) hne
      have hvs : verifySignature L priv.pub (verifierPayload t) t.signature
          = some .verification := by
        unfold verifySignature
        rw [hsig, ← hsigned, b64Decode_b64Encode]
        dsimp only
        rw [hv]
        rfl
      simp only [verifyTokenFile, readFile, hread, ht, hpub, hvs]

theorem tampered_fields_rejected_witness :
    signToekn testLib [] testKey (signerPayload (issueArgs (ascii "AA:BB:CC") expiry2099))
      = some (issuedToken (ascii "AA:BB:CC") expiry2099).signature ∧
    letterFlipWorld.fs "token.json"
      = some ((issuedFile (ascii "AA:BB:CC") expiry2099).set 26 0x42) ∧
    unmarshal ((issuedFile (ascii "AA:BB:CC") expiry2099).set 26 0x42)
      = .ok { issuedToken (ascii "AA:BB:CC") expiry2099 with machineID := ascii "AA:BB:CB" } ∧
    verifyTokenFile testLib .ok letterFlipWorld "token.json"
      = (some (.signatureVerifyFailed .verification), letterFlipWorld) :=
  ⟨by rfl, by rfl, by rfl,
    ((tampered_fields_rejected testLib .ok [] (issueArgs (ascii "AA:BB:CC") expiry2099) testKey
      (issuedToken (ascii "AA:BB:CC") expiry2099).signature letterFlipWorld "token.json"
      ((issuedFile (ascii "AA:BB:CC") expiry2099).set 26 0x42) testLib_exact (by rfl) (by rfl)
      ⟨by rfl, by rfl, by rfl, by rfl⟩ (by rfl)).2
      { issuedToken (ascii "AA:BB:CC") expiry2099 with machineID := ascii "AA:BB:CB" }
      (by rfl) (by rfl) (Or.inl (by decide))).1⟩

/-! ### Activation persistence -/

/-- Every error `verifyTokenFile` returns before it calls `persistActivation`
comes with the machine unchanged. -/
theorem verifyTokenFile_error_frame (L : Lib) (o : WriteOutcome) (w : World)
    (tokenPath : String) (e : Err) (h : (verifyTokenFile L o w tokenPath).1 = some e)
    (hp : ∀ e1, e ≠ .persistActivation e1) : (verifyTokenFile L o w tokenPath).2 = w := by
  unfold verifyTokenFile at h ⊢
  cases h1 : readFile w.fs tokenPath with
  | error e1 => simp [h1]
  | ok b =>
    cases h2 : unmarshal b with
    | error e2 => simp [h1, h2]
    | ok t =>
      cases h3 : parsePublicKey L pubKeyPEM with
      | error e3 => simp [h1, h2, h3]
      | ok pk =>
        cases h4 : verifySignature L pk (verifierPayload t) t.signature with
        | some e4 => simp [h1, h2, h3, h4]
        | none =>
          cases h5 : L.parseRFC3339 t.expiry with
          | none => simp [h1, h2, h3, h4, h5]
          | some exp =>
            by_cases h6 : exp < w.now
            · simp [h1, h2, h3, h4, h5, h6]
            · cases h7 : computeProgramHash L w with
              | error e7 => simp [h1, h2, h3, h4, h5, h6, h7]
              | ok localHash =>
                by_cases h8 : localHash = t.programHash
                · cases h9 : getMachineID L w with
                  | error e9 => simp [h1, h2, h3, h4, h5, h6, h7, h8, h9]
                  | ok localMID =>
                    by_cases h10 : localMID = t.machineID
                    · simp only [h1, h2, h3, h4, h5, h6, h7, h8, h9, h10, ne_eq,
                        not_true_eq_false, if_false] at h
                      exfalso
                      split at h
                      · next e1 w1 _ =>
                        simp only [Option.some.injEq] at h
                        exact hp e1 h.symm
                      · simp at h
                    · simp [h1, h2, h3, h4, h5, h6, h7, h8, h9, h10]
                · simp [h1, h2, h3, h4, h5, h6, h7, h8]

/-- C6. No activation on failure: whenever `verifyTokenFile` returns an error
that is not the wrapped error of `persistActivation` (so one from reading or
parsing the token, the key, the signature, the expiry, the fingerprint or
the machine identity, provider failures included), the machine, and with it
the activation store, is exactly as before the call; if no record existed,
`isActivated` is still false. -/
theorem no_activation_on_failure (L : Lib) (o : WriteOutcome) (w : World)
    (tokenPath : String) (e : Err) (h : (verifyTokenFile L o w tokenPath).1 = some e)
    (hp : ∀ e1, e ≠ .persistActivation e1) :
    (verifyTokenFile L o w tokenPath).2 = w ∧
    (isActivated w = false → isActivated (verifyTokenFile L o w tokenPath).2 = false) := by
  have hw := verifyTokenFile_error_frame L o w tokenPath e h hp
  exact ⟨hw, fun h0 => by rw [hw]; exact h0⟩

theorem no_activation_on_failure_witness :
    (verifyTokenFile testLib .ok staleWorld "token.json").1 = some (.tokenExpired t2000) ∧
    isActivated staleWorld = false ∧
    isActivated (verifyTokenFile testLib .ok staleWorld "token.json").2 = false :=
  ⟨by rfl, by rfl,
    (no_activation_on_failure testLib .ok staleWorld "token.json" (.tokenExpired t2000)
      (by rfl) (by intro e1 h; cases h)).2 (by rfl)⟩

theorem persistActivation_ok (o : WriteOutcome) (w : World) (tokenPath : String)
    (h : (persistActivation o w tokenPath).1 = none) :
    ∃ b, w.fs tokenPath = some b ∧ o = .ok ∧
      persistActivation o w tokenPath
        = (none, { w with fs := Function.update w.fs w.activationFile (some b) }) := by
  unfold persistActivation readFile at h ⊢
  cases hb : w.fs tokenPath with
  | none => simp [hb] at h
  | some b =>
    cases o with
    | ok => exact ⟨b, rfl, rfl, by simp [writeFile]⟩
    | openFail => simp [hb, writeFile] at h
    | shortWrite n => simp [hb, writeFile] at h

/-- C9, as stated, fails: after a successful `persistActivation` of a
readable token file the activation file holds the token file, and a second
`persistActivation` of the same token whose write fails once the activation
file has been truncated returns the write error and leaves an empty record:
`isActivated` is still true but the stored bytes have changed. -/
theorem second_persist_can_leave_empty_record :
    boundaryWorld.fs "token.json" = some (issuedFile (ascii "AA:BB:CC") expiry2099) ∧
    issuedFile (ascii "AA:BB:CC") expiry2099 ≠ [] ∧
    (persistActivation .ok boundaryWorld "token.json").1 = none ∧
    isActivated (persistActivation .ok boundaryWorld "token.json").2 = true ∧
    (persistActivation .ok boundaryWorld "token.json").2.fs boundaryWorld.activationFile
      = some (issuedFile (ascii "AA:BB:CC") expiry2099) ∧
    (persistActivation (.shortWrite 0) (persistActivation .ok boundaryWorld "token.json").2
      "token.json").1 = some .writeFile ∧
    isActivated (persistActivation (.shortWrite 0)
      (persistActivation .ok boundaryWorld "token.json").2 "token.json").2 = true ∧
    (persistActivation (.shortWrite 0) (persistActivation .ok boundaryWorld "token.json").2
      "token.json").2.fs boundaryWorld.activationFile = some [] :=
  ⟨by rfl, by decide, by rfl, by rfl, by rfl, by rfl, by rfl, by rfl⟩

/-- C9, amended. Persist is idempotent when the second call succeeds too.
When the token file is readable with contents `b`, a `persistActivation`
whose write succeeds returns nil; after any `persistActivation` that returns
nil, `isActivated` is true and the activation file holds exactly `b`; and a
second `persistActivation` of the same token that returns nil leaves the
machine exactly as the first one left it. -/
theorem persist_idempotent (o1 o2 : WriteOutcome) (w : World) (tokenPath : String) (b : Bytes)
    (hb : w.fs tokenPath = some b) :
    (persistActivation .ok w tokenPath).1 = none ∧
    ((persistActivation o1 w tokenPath).1 = none →
      isActivated (persistActivation o1 w tokenPath).2 = true ∧
      (persistActivation o1 w tokenPath).2.fs (persistActivation o1 w tokenPath).2.activationFile
        = some b ∧
      ((persistActivation o2 (persistActivation o1 w tokenPath).2 tokenPath).1 = none →
        (persistActivation o2 (persistActivation o1 w tokenPath).2 tokenPath).2
          = (persistActivation o1 w tokenPath).2)) := by
  refine ⟨by simp [persistActivation, readFile, hb, writeFile], ?_⟩
  intro h1
  obtain ⟨b1, hb1, _, hw1⟩ := persistActivation_ok o1 w tokenPath h1
  rw [hb] at hb1
  cases hb1
  rw [hw1]
  refine ⟨by simp [isActivated], by simp, ?_⟩
  intro h2
  obtain ⟨b2, hb2, _, hw2⟩ := persistActivation_ok o2 _ tokenPath h2
  rw [hw2]
  have hb2b : b2 = b := by
    simp only [Function.update_apply] at hb2
    split at hb2
    · exact (Option.some.inj hb2).symm
    · rw [hb] at hb2; exact (Option.some.inj hb2).symm
  subst hb2b
  simp

theorem persist_idempotent_witness :
    boundaryWorld.fs "token.json"
      = some (issuedFile (ascii "AA:BB:CC") (ascii "2099-01-01T00:00:00Z")) ∧
    (persistActivation .ok boundaryWorld "token.json").1 = none ∧
    isActivated (persistActivation .ok boundaryWorld "token.json").2 = true ∧
    (persistActivation .ok (persistActivation .ok boundaryWorld "token.json").2 "token.json").2
      = (persistActivation .ok boundaryWorld "token.json").2 :=
  ⟨by rfl, by rfl,
    ((persist_idempotent .ok .ok boundaryWorld "token.json" _ (by rfl)).2 (by rfl)).1,
    ((persist_idempotent .ok .ok boundaryWorld "token.json" _ (by rfl)).2 (by rfl)).2.2 (by rfl)⟩

/-! ### The canonical payload -/

/-- C7. Canonical payload agreement: for all four field values, the payload
the signer signs equals the payload the verifier rebuilds from any token
carrying those values, whatever that token's signature field is; both are
the JSON object with the members machine_id, program_hash, expiry, extra in
that order followed by an empty signature member, so the issued signature
is not part of the bytes signed or verified. -/
theorem payload_agreement (machineID programHash expiry extra signature : Bytes)
    (priv out : String) :
    verifierPayload ⟨machineID, programHash, expiry, extra, signature⟩
      = signerPayload ⟨priv, machineID, programHash, expiry, extra, out⟩ ∧
    signerPayload ⟨priv, machineID, programHash, expiry, extra, out⟩
      = ascii "\x7b\"machine_id\":" ++ quote machineID ++
        ascii ",\"program_hash\":" ++ quote programHash ++
        ascii ",\"expiry\":" ++ quote expiry ++
        ascii ",\"extra\":" ++ quote extra ++
        ascii ",\"signature\":\"\"\x7d" := by
  constructor
  · rfl
  · simp only [signerPayload, signerToken, marshal, quote, quoteBody, List.length_nil,
      List.nil_append, List.append_assoc]
    rfl

/-! ### The verifier program -/

/-- C8. The verifier at two failing runs, with no activation record. Given
the path of a token file that cannot be read, `verifyTokenFile` returns an
error, `main` prints "activation failed" and returns: the exit status is 0,
where the claim asks for a non-zero status. Given no token path, `main`
prints the usage lines and returns: the exit status is 0 again. The signer
ends its run with exit status 1 when a required flag is missing. -/
theorem failed_run_exits_zero :
    isActivated bareWorld = false ∧
    (verifyTokenFile testLib .ok bareWorld "missing.json").1 = some .readFile ∧
    clientMain testLib .ok bareWorld ["verifier", "missing.json"]
      = (0, [.programStart, .activationFailed .readFile], bareWorld) ∧
    clientMain testLib .ok bareWorld ["verifier"]
      = (0, [.programStart, .usage, .noTokenFile], bareWorld) ∧
    (signerMain testLib [] .ok issuerFS (issueArgs [] expiry2099)).1 = 1 := by
  refine ⟨by rfl, by rfl, by rfl, by rfl, by rfl⟩

/-! ### The machine identity -/

theorem darwinMachineID_none (w : World) : darwinMachineID w = none := by
  unfold darwinMachineID
  split <;> rfl

theorem windowsMachineID_none (L : Lib) (w : World) : windowsMachineID L w = none := by
  unfold windowsMachineID
  split <;> rfl

theorem getMachineID_eq (L : Lib) (w : World) :
    getMachineID L w =
      match linuxMachineID L w with
      | some id => .ok id
      | none => macFallback w := by
  unfold getMachineID
  simp only [darwinMachineID_none, windowsMachineID_none]

theorem machineIDFile_none_iff (L : Lib) (w : World) (path : String) :
    machineIDFile L w path = none ↔ blankFile L w path := by
  unfold machineIDFile readFile blankFile
  cases h : w.fs path with
  | none => simp
  | some b => by_cases hb : L.trimSpace b = [] <;> simp [hb]

theorem machineIDFile_some (L : Lib) (w : World) (path : String) (id : Bytes)
    (h : machineIDFile L w path = some id) :
    ∃ b, w.fs path = some b ∧ L.trimSpace b ≠ [] ∧ id = L.trimSpace b := by
  unfold machineIDFile readFile at h
  cases hb : w.fs path with
  | none => simp [hb] at h
  | some b =>
    refine ⟨b, rfl, ?_⟩
    by_cases ht : L.trimSpace b = []
    · simp [hb, ht] at h
    · simp [hb, ht] at h
      exact ⟨ht, h.symm⟩

theorem find_first (p : Interface → Bool) (pre post : List Interface) (itf : Interface)
    (hpre : ∀ x ∈ pre, p x = false) (hitf : p itf = true) :
    (pre ++ itf :: post).find? p = some itf := by
  induction pre with
  | nil => simp [List.find?, hitf]
  | cons x xs ih =>
    have hx : p x = false := hpre x (List.mem_cons_self _ _)
    simp only [List.cons_append, List.find?, hx]
    exact ih (fun y hy => hpre y (List.mem_cons_of_mem _ hy))

/-- C10. Sources of the machine id. The macOS and Windows branches never
yield an id, because `execCommand` always returns an error. So on every
platform other than Linux `getMachineID` is the interface fallback. On
Linux it is the fallback exactly when both machine-id files are unreadable
or blank after trimming; otherwise it is the trimmed contents of one of
them. The fallback is the error "no machine id available" when the
interface list cannot be read or every interface is loopback or without a
hardware address, and otherwise the hardware address string of the first
interface that is neither. -/
theorem machine_id_sources (L : Lib) (w : World) :
    ((∀ name args, execCommand name args = ([], some .execNotImplemented)) ∧
      darwinMachineID w = none ∧ windowsMachineID L w = none) ∧
    (w.goos ≠ .linux → getMachineID L w = macFallback w) ∧
    (w.goos = .linux →
      (blankFile L w "/etc/machine-id" ∧ blankFile L w "/var/lib/dbus/machine-id" →
        getMachineID L w = macFallback w) ∧
      (¬ (blankFile L w "/etc/machine-id" ∧ blankFile L w "/var/lib/dbus/machine-id") →
        linuxMachineID L w ≠ none ∧
        ∃ path b, (path = "/etc/machine-id" ∨ path = "/var/lib/dbus/machine-id") ∧
          w.fs path = some b ∧ L.trimSpace b ≠ [] ∧
          getMachineID L w = .ok (L.trimSpace b))) ∧
    (w.interfaces = none → macFallback w = .error .noMachineID) ∧
    (∀ ifas, w.interfaces = some ifas → (∀ x ∈ ifas, skipped x) →
      macFallback w = .error .noMachineID) ∧
    (∀ pre itf post, w.interfaces = some (pre ++ itf :: post) → (∀ x ∈ pre, skipped x) →
      ¬ skipped itf → macFallback w = .ok (hardwareAddrString itf.hardwareAddr)) := by
  refine ⟨⟨fun _ _ => rfl, darwinMachineID_none w, windowsMachineID_none L w⟩,
    ?_, ?_, ?_, ?_, ?_⟩
  · intro h
    rw [getMachineID_eq]
    simp [linuxMachineID, h]
  · intro h
    rw [getMachineID_eq]
    constructor
    · rintro ⟨h1, h2⟩
      rw [← machineIDFile_none_iff] at h1 h2
      simp [linuxMachineID, h, h1, h2]
    · intro hnb
      cases h1 : machineIDFile L w "/etc/machine-id" with
      | some id =>
        obtain ⟨b, hb, hne, hid⟩ := machineIDFile_some L w _ id h1
        refine ⟨by simp [linuxMachineID, h, h1], "/etc/machine-id", b, Or.inl rfl, hb, hne, ?_⟩
        simp [linuxMachineID, h, h1, hid]
      | none =>
        cases h2 : machineIDFile L w "/var/lib/dbus/machine-id" with
        | some id =>
          obtain ⟨b, hb, hne, hid⟩ := machineIDFile_some L w _ id h2
          refine ⟨by simp [linuxMachineID, h, h1, h2], "/var/lib/dbus/machine-id", b,
            Or.inr rfl, hb, hne, ?_⟩
          simp [linuxMachineID, h, h1, h2, hid]
        | none =>
          exact absurd ⟨(machineIDFile_none_iff L w _).mp h1,
            (machineIDFile_none_iff L w _).mp h2⟩ hnb
  · intro h
    simp [macFallback, h]
  · intro ifas h hall
    have hnone : ifas.find?
        (fun itf => decide (itf.flags &&& flagLoopback = 0 ∧ 0 < itf.hardwareAddr.length))
        = none := by
      rw [List.find?_eq_none]
      intro x hx
      have := hall x hx
      unfold skipped at this
      simpa using this
    simp only [macFallback, h, hnone]
  · intro pre itf post h hpre hitf
    have hsome : (pre ++ itf :: post).find?
        (fun itf => decide (itf.flags &&& flagLoopback = 0 ∧ 0 < itf.hardwareAddr.length))
        = some itf := by
      apply find_first
      · intro x hx
        have := hpre x hx
        unfold skipped at this
        exact decide_eq_false this
      · unfold skipped at hitf
        simp only [not_not] at hitf
        exact decide_eq_true hitf
    simp only [macFallback, h, hsome]

theorem machine_id_sources_witness :
    macWorld.goos ≠ .linux ∧
    getMachineID testLib macWorld = .ok (ascii "82:ff:d9:2d:e2:dd") ∧
    blankLinuxWorld.goos = .linux ∧
    blankFile testLib blankLinuxWorld "/etc/machine-id" ∧
    blankFile testLib blankLinuxWorld "/var/lib/dbus/machine-id" ∧
    getMachineID testLib blankLinuxWorld = macFallback blankLinuxWorld :=
  ⟨by decide,
    ((machine_id_sources testLib macWorld).2.1 (by decide)).trans
      ((machine_id_sources testLib macWorld).2.2.2.2.2 [⟨5, [0, 0, 0, 0, 0, 0]⟩, ⟨3, []⟩]
        ⟨3, [0x82, 0xFF, 0xD9, 0x2D, 0xE2, 0xDD]⟩ [] rfl (by decide) (by decide)),
    rfl, Or.inr ⟨ascii "\n", rfl, by rfl⟩, Or.inl rfl,
    ((machine_id_sources testLib blankLinuxWorld).2.2.1 rfl).1
      ⟨Or.inr ⟨ascii "\n", rfl, by rfl⟩, Or.inl rfl⟩⟩

end OfflineActivate
